import Mathlib

/-!
# Rsamtools mate reconciliation: a shallow embedding of `Template.hpp`,
# `BamRangeIterator.hpp` and `_scan_bam_fetch` of `io_sam.c`

The records (`bam1_t`) are values; the three `std::list<const bam1_t *>` members of
`Template` are Lean lists; member functions that mutate the object take the state and
return the new state next to their result.  Undefined behaviour of the C++ code
(`strcmp` on a null or uninitialised pointer) is the result `none`.
-/

namespace Rsamtools

/-! ## Records and flag bits -/

/-- Flag bit 0x1 of `samtools/sam.h`: the read is paired in sequencing. -/
def BAM_FPAIRED : Nat := 0x1
/-- Flag bit 0x4: the segment itself is unmapped. -/
def BAM_FUNMAP : Nat := 0x4
/-- Flag bit 0x8: the mate is unmapped. -/
def BAM_FMUNMAP : Nat := 0x8
/-- Flag bit 0x40: this is read1 (first segment). -/
def BAM_FREAD1 : Nat := 0x40
/-- Flag bit 0x80: this is read2 (last segment). -/
def BAM_FREAD2 : Nat := 0x80
/-- Flag bit 0x100: not the primary alignment. -/
def BAM_FSECONDARY : Nat := 0x100

/-- The fields of `bam1_t` that `Template` reads: `core.tid`, `core.pos`, `core.mtid`,
`core.mpos`, `core.flag`, the query name (`bam1_qname`) and the `RG` aux tag
(`bam_aux_get(b, "RG")`, `none` when the tag is absent). -/
structure Record where
  tid : Int
  pos : Int
  mtid : Int
  mpos : Int
  flag : Nat
  qname : String
  rg : Option String
deriving DecidableEq, Repr

/-- The C conversion `const bool x = flag & MASK`: true iff some bit of the mask is set. -/
def flag_bit (flag mask : Nat) : Bool := (flag &&& mask) != 0

/-! ## Template -/

/-- The members of `class Template`: `rg` and `qname` are `char *` (`rg` initialised to
the null pointer by both constructors, `qname` left uninitialised: both `none`), and the
three segment lists. -/
structure Template where
  rg : Option String
  qname : Option String
  inprogress : List Record
  complete : List Record
  incomplete : List Record
deriving DecidableEq, Repr

namespace Template

/-- The default constructor `Template() : rg(0) {}`. -/
def empty : Template :=
  { rg := none, qname := none, inprogress := [], complete := [], incomplete := [] }

/-- `Template::size`. -/
def size (t : Template) : Nat :=
  t.inprogress.length + t.complete.length + t.incomplete.length

/-- `Template::get_incomplete`: copy `incomplete`, clear it, return the copy. -/
def get_incomplete (t : Template) : List Record × Template :=
  (t.incomplete, { t with incomplete := [] })

/-- `Template::get_complete`: copy `complete`, clear it, return the copy. -/
def get_complete (t : Template) : List Record × Template :=
  (t.complete, { t with complete := [] })

/-- `Template::is_valid`. -/
def is_valid (bam : Record) : Bool :=
  let multi_seg := flag_bit bam.flag BAM_FPAIRED
  let seg_unmapped := flag_bit bam.flag BAM_FUNMAP
  let mate_unmapped := flag_bit bam.flag BAM_FMUNMAP
  multi_seg && !seg_unmapped && !mate_unmapped && (bam.mpos != -1)

/-- `Template::readgroup_q`, as the truth of `readgroup_q(mate) == 0`: both pointers
null gives 0; otherwise `strcmp(rg, rg0)`, which is undefined (`none`) when exactly one
of the two is null. -/
def readgroup_q (t : Template) (mate : Record) : Option Bool :=
  match t.rg, mate.rg with
  | none, none => some true
  | some rg, some rg0 => some (rg == rg0)
  | _, _ => none

/-- `Template::qname_q`, as the truth of `qname_q(mate) == 0`: `strcmp(qname, ...)`,
undefined (`none`) while `qname` has never been assigned. -/
def qname_q (t : Template) (mate : Record) : Option Bool :=
  match t.qname with
  | some q => some (q == mate.qname)
  | none => none

/-- `Template::is_template`: `(readgroup_q(mate) == 0) && (qname_q(mate) == 0)` with the
short circuit of `&&`. -/
def is_template (t : Template) (mate : Record) : Option Bool :=
  match readgroup_q t mate with
  | none => none
  | some false => some false
  | some true => qname_q t mate

/-- `Template::is_mate`. -/
def is_mate (bam mate : Record) : Bool :=
  let bam_read1 := flag_bit bam.flag BAM_FREAD1
  let bam_read2 := flag_bit bam.flag BAM_FREAD2
  let bam_secondary := flag_bit bam.flag BAM_FSECONDARY
  let mate_read1 := flag_bit mate.flag BAM_FREAD1
  let mate_read2 := flag_bit mate.flag BAM_FREAD2
  let mate_secondary := flag_bit mate.flag BAM_FSECONDARY
  ((bam_read1 == mate_read2) || (bam_read2 == mate_read1)) &&
  (bam_secondary == mate_secondary) &&
  (bam.mtid == mate.tid) &&
  (bam.pos == mate.mpos) &&
  (bam.mpos == mate.pos)

/-- The `while (it != inprogress.end())` scan of `add_segment`: the first entry `*it`
with `is_mate(bam, *it)`, and the list after `inprogress.erase(it)`; `none` when the scan
reaches the end. -/
def scan_inprogress (bam : Record) : List Record → Option (Record × List Record)
  | [] => none
  | m :: rest =>
    if is_mate bam m then some (m, rest)
    else
      match scan_inprogress bam rest with
      | some (m0, rest0) => some (m0, m :: rest0)
      | none => none

/-- `Template::add_segment`: the returned flag and the template afterwards. -/
def add_segment (t : Template) (bam : Record) : Bool × Template :=
  if !is_valid bam then
    (false, { t with incomplete := t.incomplete ++ [bam] })
  else if t.size = 0 then
    (false, { t with
      qname := some bam.qname
      rg := (match bam.rg with
        | some g => some g
        | none => t.rg)
      inprogress := t.inprogress ++ [bam] })
  else if t.inprogress.length > 0 then
    match scan_inprogress bam t.inprogress with
    | some (m, rest) =>
      (true, { t with complete := t.complete ++ [m, bam], inprogress := rest })
    | none => (false, { t with inprogress := t.inprogress ++ [bam] })
  else
    (false, { t with inprogress := t.inprogress ++ [bam] })

/-- The records that `bam_iter_read` delivers for `bam_iter_query(bindex, tid, beg, end)`
until it returns a negative value: the content of the index and of the file behind it. -/
abbrev Index := Int → Int → Int → List Record

/-- The inner `while (bam_iter_read(bfile, iter, bam) >= 0)` loop of
`mate_inprogress_segments` for the segment `curr`: `some (some bam)` when it sets
`mate_found` on the record `bam`, `some none` when it leaves without a mate, `none`
when `is_template` is undefined on a record it reads. -/
def find_mate (t : Template) (curr : Record) : List Record → Option (Option Record)
  | [] => some none
  | bam :: rest =>
    if curr.mpos = -1 then some none
    else if is_valid bam then
      match is_template t bam with
      | none => none
      | some true => if is_mate curr bam then some (some bam) else find_mate t curr rest
      | some false => find_mate t curr rest
    else find_mate t curr rest

/-- The outer loop of `mate_inprogress_segments` over the entries of `inprogress` still
to visit: `kept` are the entries already visited and left in place, `compl` is
`complete` so far. -/
def mate_loop (t : Template) (bindex : Index) :
    List Record → List Record → List Record → Option (List Record × List Record)
  | [], kept, compl => some (kept, compl)
  | curr :: rest, kept, compl =>
    match find_mate t curr (bindex curr.mtid curr.mpos (curr.mpos + 1)) with
    | none => none
    | some (some bam) => mate_loop t bindex rest kept (compl ++ [bam, curr])
    | some none => mate_loop t bindex rest (kept ++ [curr]) compl

/-- `Template::mate_inprogress_segments`: the returned `complete.size() > 0` and the
template afterwards. -/
def mate_inprogress_segments (t : Template) (bindex : Index) : Option (Bool × Template) :=
  match mate_loop t bindex t.inprogress [] t.complete with
  | none => none
  | some (kept, compl) =>
    some (decide (compl.length > 0), { t with inprogress := kept, complete := compl })

/-- `Template::cleanup`: `Rf_error` leaves the function before anything is changed; the
result is the error message or the returned list, next to the template afterwards. -/
def cleanup (t : Template) : Except String (List Record) × Template :=
  if t.complete.length ≠ 0 then
    (Except.error "Error in cleanup: 'complete' not empty", t)
  else
    let t1 : Template :=
      if !t.inprogress.isEmpty then
        { t with incomplete := t.incomplete ++ t.inprogress, inprogress := [] }
      else t
    let r := get_incomplete t1
    (Except.ok r.1, r.2)

end Template

/-! ## The finalization loop of the range iterator -/

/-- How a modelled loop ends: with a state, in undefined behaviour of the C++ code, or
because the step budget of the model was used up. -/
inductive Run (α : Type) where
  | ok (a : α)
  | undefined
  | out_of_fuel
deriving DecidableEq, Repr

namespace BamRangeIterator

open Template

/-- Modelled from the spec: the type `Templates` is declared in BamIterator.hpp, which
is not among the sources; the spec describes a mapping from template identity to
`Template`.  It is held here as the list of its entries in traversal order. -/
abbrev Templates := List (String × Template)

/-- The inner loop of `iterate_incomplete` for one registry entry,
`while (it->second.mate_inprogress_segments(bfile, bindex))
   complete.push(it->second.get_complete());`
with a step budget: the groups pushed onto the `complete` queue, in order, and how the
loop ends. -/
def mate_while (bindex : Index) : Nat → Template → List (List Record) × Run Template
  | 0, _ => ([], Run.out_of_fuel)
  | fuel + 1, t =>
    match mate_inprogress_segments t bindex with
    | none => ([], Run.undefined)
    | some (false, t1) => ([], Run.ok t1)
    | some (true, t1) =>
      let r := mate_while bindex fuel (get_complete t1).2
      ((get_complete t1).1 :: r.1, r.2)

/-- The `for (it = templates.begin(); it != templates.end(); ++it)` loop of
`BamRangeIterator::iterate_incomplete`: the groups pushed onto the `complete` queue, in
order, and the registry afterwards.  Each entry gets a budget of two steps more than it
has `inprogress` segments. -/
def mate_templates (bindex : Index) : Templates → List (List Record) × Run Templates
  | [] => ([], Run.ok [])
  | (k, t) :: rest =>
    let r := mate_while bindex (t.inprogress.length + 2) t
    match r.2 with
    | Run.ok t1 =>
      let rs := mate_templates bindex rest
      (r.1 ++ rs.1,
        match rs.2 with
        | Run.ok ts => Run.ok ((k, t1) :: ts)
        | Run.undefined => Run.undefined
        | Run.out_of_fuel => Run.out_of_fuel)
    | Run.undefined => (r.1, Run.undefined)
    | Run.out_of_fuel => (r.1, Run.out_of_fuel)

end BamRangeIterator

/-! ## Sequences of calls on one template -/

/-- One call on a `Template`. -/
inductive Call where
  | add_segment (bam : Record)
  | mate_inprogress_segments (bindex : Template.Index)
  | get_complete
  | get_incomplete
  | cleanup

/-- The template after one call; `none` when the call does not return normally
(`cleanup` raising its error, or undefined behaviour in `is_template`). -/
def Call.apply (t : Template) : Call → Option Template
  | Call.add_segment bam => some (t.add_segment bam).2
  | Call.mate_inprogress_segments bindex =>
    match t.mate_inprogress_segments bindex with
    | some r => some r.2
    | none => none
  | Call.get_complete => some t.get_complete.2
  | Call.get_incomplete => some t.get_incomplete.2
  | Call.cleanup =>
    match t.cleanup with
    | (Except.ok _, t1) => some t1
    | (Except.error _, _) => none

/-- The template after a sequence of calls, each of which returns normally. -/
def run_calls : List Call → Template → Option Template
  | [], t => some t
  | c :: cs, t =>
    match c.apply t with
    | some t1 => run_calls cs t1
    | none => none

/-! ## The pairing rule as the specification words it -/

/-- The spec's "the pair is one read-first segment plus one read-second segment". -/
def first_second_pair (a b : Record) : Bool :=
  (flag_bit a.flag BAM_FREAD1 && flag_bit b.flag BAM_FREAD2) ||
  (flag_bit a.flag BAM_FREAD2 && flag_bit b.flag BAM_FREAD1)

/-- The spec's "carries no read-first/read-second designation". -/
def no_designation (r : Record) : Bool :=
  !flag_bit r.flag BAM_FREAD1 && !flag_bit r.flag BAM_FREAD2

/-- The spec's wording of the mate predicate (and that of the comment above
`Template::is_mate`): a first/second pair or neither segment designated, equal secondary
flags, `a`'s mate reference is `b`'s reference, and reciprocal positions. -/
def is_mate_spec (a b : Record) : Bool :=
  (first_second_pair a b || (no_designation a && no_designation b)) &&
  (flag_bit a.flag BAM_FSECONDARY == flag_bit b.flag BAM_FSECONDARY) &&
  (a.mtid == b.tid) &&
  (a.pos == b.mpos) &&
  (b.pos == a.mpos)

/-! ## Concrete records -/

/-- Read-first segment of template A: reference 1, position 100, mate at reference 1,
position 200; flag 0x41 (paired, read1). -/
def recA1 : Record :=
  { tid := 1, pos := 100, mtid := 1, mpos := 200, flag := 0x41, qname := "A", rg := none }

/-- Read-second segment of template A: reference 1, position 200, mate at reference 1,
position 100; flag 0x81 (paired, read2). -/
def recA2 : Record :=
  { tid := 1, pos := 200, mtid := 1, mpos := 100, flag := 0x81, qname := "A", rg := none }

/-- A segment on reference 1 whose mate is said to lie on reference 2. -/
def recX : Record :=
  { tid := 1, pos := 100, mtid := 2, mpos := 200, flag := 0x41, qname := "X", rg := none }

/-- A segment on reference 2 whose mate is said to lie on reference 5. -/
def recY : Record :=
  { tid := 2, pos := 200, mtid := 5, mpos := 100, flag := 0x81, qname := "X", rg := none }

/-- A paired segment carrying neither the read1 nor the read2 bit (flag 0x1), placed
where `recA1` expects its mate. -/
def recNoDesignation : Record :=
  { tid := 1, pos := 200, mtid := 1, mpos := 100, flag := 0x1, qname := "A", rg := none }

/-- A record with the paired bit clear (flag 0). -/
def recUnpaired : Record :=
  { tid := 1, pos := 100, mtid := -1, mpos := -1, flag := 0, qname := "U", rg := none }

/-- Read-first primary alignment of template B at reference 1, position 100; its mate
lies at position 500 (flag 0x41). -/
def recS1 : Record :=
  { tid := 1, pos := 100, mtid := 1, mpos := 500, flag := 0x41, qname := "B", rg := none }

/-- Read-first secondary alignment of template B at reference 1, position 105; its mate
lies at position 600 (flag 0x141). -/
def recS2 : Record :=
  { tid := 1, pos := 105, mtid := 1, mpos := 600, flag := 0x141, qname := "B", rg := none }

/-- The mate of `recS1`: read-second primary alignment at position 500 (flag 0x81). -/
def recM1 : Record :=
  { tid := 1, pos := 500, mtid := 1, mpos := 100, flag := 0x81, qname := "B", rg := none }

/-- The mate of `recS2`: read-second secondary alignment at position 600 (flag 0x181). -/
def recM2 : Record :=
  { tid := 1, pos := 600, mtid := 1, mpos := 105, flag := 0x181, qname := "B", rg := none }

/-- An index over a file that holds `recM1` at position 500 and `recM2` at position 600
of reference 1. -/
def pointIndex : Template.Index := fun tid beg _ =>
  if tid = 1 ∧ beg = 500 then [recM1]
  else if tid = 1 ∧ beg = 600 then [recM2]
  else []

/-- Template B after a range scan over positions 100 to 110 of reference 1 has read
`recS1` and `recS2`: both wait in `inprogress`. -/
def tplTwoWaiting : Template :=
  (Template.add_segment (Template.add_segment Template.empty recS1).2 recS2).2

/-! ## The range iterator: batching and finalization -/

/-- Modelled from the spec: the members of the base class `BamIterator`, declared in
BamIterator.hpp, which is not among the sources, that `BamRangeIterator` and the spec
name: the template registry, the queue of completed groups and the queue of incomplete
groups. -/
structure BamIterator where
  templates : BamRangeIterator.Templates
  complete : List (List Record)
  incomplete : List (List Record)
deriving DecidableEq, Repr

namespace BamRangeIterator

/-- The state that `BamRangeIterator::iterate_complete` works on: the base-class members,
the records that the range cursor `iter` has yet to deliver (`bam_iter_read` returns a
negative value once the list is empty), the buffer `bam` (`none` for the NULL pointer
and, once the cursor is exhausted, for a buffer that holds no record to process: after
that `iter_done` guards every use), and `iter_done`. -/
structure State where
  base : BamIterator
  iter : List Record
  bam : Option Record
  iter_done : Bool
deriving DecidableEq, Repr

/-- The `do { ... } while (!done)` loop of `iterate_complete`, entered with the record
`bam` in the buffer.  `process` is `BamIterator::process`, which is not among the
sources and is kept as a parameter acting on the base-class members. -/
def iterate_loop (process : Record → BamIterator → BamIterator) :
    Record → List Record → BamIterator → State
  | bam, [], base =>
    { base := process bam base, iter := [], bam := none, iter_done := true }
  | bam, next :: rest, base =>
    let base1 := process bam base
    if base1.complete.length ≠ 0 then
      if next.tid ≠ bam.tid ∨ next.pos ≠ bam.pos then
        { base := base1, iter := rest, bam := some next, iter_done := false }
      else iterate_loop process next rest base1
    else iterate_loop process next rest base1

/-- `BamRangeIterator::iterate_complete`. -/
def iterate_complete (process : Record → BamIterator → BamIterator) (it : State) : State :=
  if it.iter_done then it
  else
    match it.bam with
    | none =>
      match it.iter with
      | [] => { it with iter_done := true }
      | first :: rest => iterate_loop process first rest it.base
    | some bam => iterate_loop process bam it.iter it.base

/-- The records a call of `iterate_complete` has before it, in the order in which it
would process them: the record retained in the buffer, then those of the cursor. -/
def pending (it : State) : List Record :=
  match it.bam with
  | some bam => bam :: it.iter
  | none => it.iter

/-- The base-class members after `process` was called on each record of a list in turn. -/
def process_all (process : Record → BamIterator → BamIterator) (base : BamIterator)
    (recs : List Record) : BamIterator :=
  recs.foldl (fun b r => process r b) base

/-- The stop test of `iterate_complete` after a successful read: the queue of completed
groups is not empty and the record just read, `next`, differs in reference id or
position from the record processed before it, `prev`. -/
def batch_boundary (base : BamIterator) (prev next : Record) : Bool :=
  decide (base.complete.length ≠ 0) && decide (next.tid ≠ prev.tid ∨ next.pos ≠ prev.pos)

/-- `BamRangeIterator::iterate_incomplete` on the iterator and the file offset `bfile`
(`bam_tell`).  `moved` gives the offset at which the point queries of the loop leave the
file; `base_iterate_incomplete` is `BamIterator::iterate_incomplete(bfile)`, not among the
sources: it returns the base-class members or the error it raises, and the offset at
which it leaves the file.  The result is the iterator (or the error raised, which skips
`bam_seek`) next to the file offset afterwards. -/
def iterate_incomplete (bindex : Template.Index) (moved : Templates → Int → Int)
    (base_iterate_incomplete : BamIterator → Int → Except String BamIterator × Int)
    (it : State) (bfile : Int) : Run (Except String State × Int) :=
  let pos := bfile
  let r := mate_templates bindex it.base.templates
  match r.2 with
  | Run.ok ts =>
    let base1 : BamIterator :=
      { it.base with templates := ts, complete := it.base.complete ++ r.1 }
    match base_iterate_incomplete base1 (moved it.base.templates bfile) with
    | (Except.ok base2, _) => Run.ok (Except.ok { it with base := base2 }, pos)
    | (Except.error msg, off) => Run.ok (Except.error msg, off)
  | Run.undefined => Run.undefined
  | Run.out_of_fuel => Run.out_of_fuel

end BamRangeIterator

namespace BamIterator

/-- One step of the spec-modelled `process`: the entry of the registry whose key is the
query name of the record takes the record (a new entry is made at the end when there is
none); the returned list is the completed group to push, when the call mated. -/
def add_to_registry (bam : Record) :
    BamRangeIterator.Templates → BamRangeIterator.Templates × Option (List Record)
  | [] =>
    let r := Template.add_segment Template.empty bam
    if r.1 then ([(bam.qname, (Template.get_complete r.2).2)], some (Template.get_complete r.2).1)
    else ([(bam.qname, r.2)], none)
  | (k, t) :: rest =>
    if k == bam.qname then
      let r := Template.add_segment t bam
      if r.1 then ((k, (Template.get_complete r.2).2) :: rest, some (Template.get_complete r.2).1)
      else ((k, r.2) :: rest, none)
    else
      let r := add_to_registry bam rest
      ((k, t) :: r.1, r.2)

/-- Modelled from the spec: `BamIterator::process` is defined in BamIterator.hpp, which
is not among the sources.  The spec: "locate/create its Template in the registry by
identity; add_segment; if the call mated, push the two-element completed group to the
consumer immediately".  The registry is searched by query name. -/
def process (bam : Record) (b : BamIterator) : BamIterator :=
  let r := add_to_registry bam b.templates
  match r.2 with
  | some g => { b with templates := r.1, complete := b.complete ++ [g] }
  | none => { b with templates := r.1 }

/-- The `cleanup` calls of the spec-modelled `iterate_incomplete` over the registry: the
incomplete groups to push, or the error of the first `cleanup` that fails. -/
def cleanup_all : BamRangeIterator.Templates → Except String (List (List Record))
  | [] => Except.ok []
  | (_, t) :: rest =>
    match Template.cleanup t with
    | (Except.error msg, _) => Except.error msg
    | (Except.ok l, _) =>
      match cleanup_all rest with
      | Except.error msg => Except.error msg
      | Except.ok gs => Except.ok (l.map (fun r => [r]) ++ gs)

/-- Modelled from the spec: `BamIterator::iterate_incomplete` is defined in
BamIterator.hpp, which is not among the sources.  The spec: "iterate every Template in
the registry, call cleanup(), and push any resulting incomplete singleton(s) to the
consumer. Registry is then discarded."  It does not touch the file. -/
def iterate_incomplete (b : BamIterator) (bfile : Int) : Except String BamIterator × Int :=
  match cleanup_all b.templates with
  | Except.error msg => (Except.error msg, bfile)
  | Except.ok gs =>
    (Except.ok { b with templates := [], incomplete := b.incomplete ++ gs }, bfile)

end BamIterator

/-! ## Range fetching in `io_sam.c` -/

/-- The fields of `BAM_DATA` (declared in bam_data.h) that `_scan_bam_fetch` reads or
writes: the count of parsed records, the index of the current range, and `asMates`. -/
structure BAM_DATA where
  iparsed : Int
  irange : Int
  asMates : Bool
deriving DecidableEq, Repr

/-- The result of `_scan_bam_fetch`: the returned status, `bd` afterwards, and the
records that the fetches of this call have read from the file, in order. -/
structure FetchResult where
  status : Int
  bd : BAM_DATA
  fetched : List Record
deriving DecidableEq, Repr

/-- The lookup loop of `_scan_bam_fetch`,
`for (tid = 0; tid < n_targets; ++tid) if (strcmp(spc, target_name[tid]) == 0) break;`:
the value of `tid` after it, which is the number of targets when no name matches. -/
def lookup_tid (spc : String) : List String → Nat
  | [] => 0
  | name :: rest => if spc == name then 0 else lookup_tid spc rest + 1

/-- The `for (irange ...)` loop of `_scan_bam_fetch` over the requested ranges
(`space[irange]`, `start[irange]`, `end[irange]`) still to do.  `fetch asMates tid beg
end bd` stands for `bam_mate_fetch` (when `asMates`) or `bam_fetch` with the callback
`parse1`: it returns the records read for the range and `bd` after the callback has seen
them.  `finish1` is the optional callback; `n_tot` and `asMates` are the values read
before the loop. -/
def scan_bam_fetch_loop (fetch : Bool → Int → Int → Int → BAM_DATA → List Record × BAM_DATA)
    (finish1 : Option (BAM_DATA → BAM_DATA)) (target_name : List String) (n_tot : Int)
    (asMates : Bool) : List (String × Int × Int) → BAM_DATA → List Record → FetchResult
  | [], bd, fetched => { status := bd.iparsed - n_tot, bd := bd, fetched := fetched }
  | (spc, start, end0) :: rest, bd, fetched =>
    let starti := if start > 0 then start - 1 else start
    let tid := lookup_tid spc target_name
    if tid = target_name.length then
      { status := -1, bd := bd, fetched := fetched }
    else
      let r := fetch asMates tid starti end0 bd
      let bd1 :=
        match finish1 with
        | some f => f r.2
        | none => r.2
      scan_bam_fetch_loop fetch finish1 target_name n_tot asMates rest
        { bd1 with irange := bd1.irange + 1 } (fetched ++ r.1)

/-- `_scan_bam_fetch` of `io_sam.c`, on the header's target names and the requested
ranges. -/
def _scan_bam_fetch (fetch : Bool → Int → Int → Int → BAM_DATA → List Record × BAM_DATA)
    (finish1 : Option (BAM_DATA → BAM_DATA)) (target_name : List String) (bd : BAM_DATA)
    (ranges : List (String × Int × Int)) : FetchResult :=
  scan_bam_fetch_loop fetch finish1 target_name bd.iparsed bd.asMates ranges bd []

/-- The samtools routine `bam_fetch` with a callback that counts every record
(`bd->iparsed += 1`), over the index content `bindex`. -/
def bam_fetch_counting (bindex : Template.Index) :
    Bool → Int → Int → Int → BAM_DATA → List Record × BAM_DATA :=
  fun _ tid beg end0 bd =>
    (bindex tid beg end0,
      { bd with iparsed := bd.iparsed + ((bindex tid beg end0).length : Int) })

/-- A record on reference 0 (the first target of the header), position 100. -/
def recT0 : Record :=
  { tid := 0, pos := 100, mtid := 0, mpos := 200, flag := 0x41, qname := "T", rg := none }

/-- An index over a file whose reference 0 holds the one record `recT0`. -/
def oneRecordIndex : Template.Index := fun tid _ _ => if tid = 0 then [recT0] else []

/-- The `BAM_DATA` at the start of a scan: nothing parsed, first range, plain fetch. -/
def bdStart : BAM_DATA := { iparsed := 0, irange := 0, asMates := false }

/-! ## The pair structure of `complete` -/

/-- Consecutive pairs of a list are mated valid records: for `a` at an even place and
`b` right after it, both are valid and `is_mate(b, a)` holds.  A last record without a
partner is not constrained. -/
def pairs_mated : List Record → Bool
  | a :: b :: rest =>
    Template.is_valid a && Template.is_valid b && Template.is_mate b a && pairs_mated rest
  | _ => true

/-- The template after one call, also when `cleanup` raises its error (`Rf_error` leaves
the template as it is); `none` only for undefined behaviour in `is_template`. -/
def Call.state_after (t : Template) : Call → Option Template
  | Call.cleanup => some t.cleanup.2
  | c => c.apply t

/-- The template after a sequence of calls, among them `cleanup` calls that fail. -/
def run_calls_raising : List Call → Template → Option Template
  | [], t => some t
  | c :: cs, t =>
    match c.state_after t with
    | some t1 => run_calls_raising cs t1
    | none => none

/-! ## Concrete iterator states -/

/-- A record of template A with the paired bit clear (flag 0): not valid. -/
def recA0 : Record :=
  { tid := 1, pos := 50, mtid := -1, mpos := -1, flag := 0, qname := "A", rg := none }

/-- A record of template C at reference 1, position 300: read-first, mate at position
900 (flag 0x41). -/
def recC1 : Record :=
  { tid := 1, pos := 300, mtid := 1, mpos := 900, flag := 0x41, qname := "C", rg := none }

/-- A range iterator before its first read, over a cursor that delivers `recA1`,
`recA2` (positions 100 and 200) and `recC1` (position 300). -/
def itFresh : BamRangeIterator.State :=
  { base := { templates := [], complete := [], incomplete := [] },
    iter := [recA1, recA2, recC1], bam := none, iter_done := false }

/-- A range iterator whose range is exhausted, with template B waiting for the mates of
`recS1` and `recS2`. -/
def itExhausted : BamRangeIterator.State :=
  { base := { templates := [("B", tplTwoWaiting)], complete := [], incomplete := [] },
    iter := [], bam := none, iter_done := true }

/-- An index over a file that holds `recA2`, the mate of `recA1`, at position 200 of
reference 1. -/
def mateA2Index : Template.Index := fun tid beg _ =>
  if tid = 1 ∧ beg = 200 then [recA2] else []

/-! ## Finalization and range fetching as the amended claims word them -/

/-- The mate that the point query of an unresolved segment `s` finds, in the spec's
words: "query the interval [mate-position, mate-position+1) on the segment's
mate-reference-id.  Scan the point-query results for a record that is simultaneously
valid, same-template, and a mate match; on first match ..."; a segment whose mate
position is -1 finds none. -/
def point_query_mate (t : Template) (bindex : Template.Index) (s : Record) :
    Option Record :=
  if s.mpos = -1 then none
  else
    (bindex s.mtid s.mpos (s.mpos + 1)).find? (fun bam =>
      Template.is_valid bam && (Template.is_template t bam == some true) &&
        Template.is_mate s bam)

/-- The records that finalization adds to `complete` for a list of in-progress segments:
for each segment, in order, whose point query finds a mate, the found mate and then the
segment. -/
def mated_pairs (t : Template) (bindex : Template.Index) : List Record → List Record
  | [] => []
  | s :: rest =>
    match point_query_mate t bindex s with
    | some m => m :: s :: mated_pairs t bindex rest
    | none => mated_pairs t bindex rest

/-- The in-progress segments whose point query finds no mate, in order. -/
def unmated (t : Template) (bindex : Template.Index) (l : List Record) : List Record :=
  l.filter (fun s => (point_query_mate t bindex s).isNone)

/-- The group that finalization pushes for one template: what its `complete` held at
entry, followed by the pairs mated by the point queries. -/
def finalization_group (t : Template) (bindex : Template.Index) : List Record :=
  t.complete ++ mated_pairs t bindex t.inprogress

/-- One requested range fetched and finished, as the amended claim words it: the fetch
is issued for the position of the range's name among the header's target names, from
the 0-based start (`start - 1` when `start` is positive) to `end`; then `finish1` runs,
when there is one, and `irange` is advanced.  The records read are appended to those
read so far. -/
def fetch_range (fetch : Bool → Int → Int → Int → BAM_DATA → List Record × BAM_DATA)
    (finish1 : Option (BAM_DATA → BAM_DATA)) (target_name : List String) (asMates : Bool)
    (acc : List Record × BAM_DATA) (range : String × Int × Int) :
    List Record × BAM_DATA :=
  let tid : Int := ((target_name.indexOf range.1 : Nat) : Int)
  let beg : Int := if range.2.1 > 0 then range.2.1 - 1 else range.2.1
  let r := fetch asMates tid beg range.2.2 acc.2
  let bd1 : BAM_DATA :=
    match finish1 with
    | some f => f r.2
    | none => r.2
  (acc.1 ++ r.1, { bd1 with irange := bd1.irange + 1 })

/-- The requested ranges fetched and finished one after the other, from `bd`: the
records read, in order, and `bd` afterwards. -/
def fetch_ranges (fetch : Bool → Int → Int → Int → BAM_DATA → List Record × BAM_DATA)
    (finish1 : Option (BAM_DATA → BAM_DATA)) (target_name : List String) (asMates : Bool)
    (ranges : List (String × Int × Int)) (bd : BAM_DATA) : List Record × BAM_DATA :=
  ranges.foldl (fetch_range fetch finish1 target_name asMates) ([], bd)

/-- An index over a file that delivers no record for any query. -/
def emptyIndex : Template.Index := fun _ _ _ => []

/-- Template A with the mated pair `recA1`, `recA2` still in `complete` (not drained)
and a further copy of `recA1` waiting in `inprogress`. -/
def tplUndrained : Template :=
  (Template.add_segment
    (Template.add_segment (Template.add_segment Template.empty recA1).2 recA2).2 recA1).2

/-! # Theorems -/

section Theorems

open Template BamRangeIterator

/-! ## Helper lemmas -/

/-- The scan stops at the first mate: entries before it are kept, it is erased. -/
theorem scan_inprogress_found (r m : Record) (post : List Record) :
    ∀ pre : List Record, (∀ x ∈ pre, is_mate r x = false) → is_mate r m = true →
      scan_inprogress r (pre ++ m :: post) = some (m, pre ++ post) := by
  intro pre
  induction pre with
  | nil => intro _ hm; simp [scan_inprogress, hm]
  | cons x xs ih =>
    intro hpre hm
    have hx : is_mate r x = false := hpre x (List.mem_cons_self x xs)
    have hxs : ∀ y ∈ xs, is_mate r y = false := fun y hy => hpre y (List.mem_cons_of_mem x hy)
    simp [scan_inprogress, hx, ih hxs hm]

/-- The scan finds nothing when no entry is a mate. -/
theorem scan_inprogress_none (r : Record) :
    ∀ l : List Record, (∀ x ∈ l, is_mate r x = false) → scan_inprogress r l = none := by
  intro l
  induction l with
  | nil => intro _; rfl
  | cons x xs ih =>
    intro h
    have hx : is_mate r x = false := h x (List.mem_cons_self x xs)
    have hxs : ∀ y ∈ xs, is_mate r y = false := fun y hy => h y (List.mem_cons_of_mem x hy)
    simp [scan_inprogress, hx, ih hxs]

/-- The direction of the spec's characterisation that the code does satisfy: whatever the
spec's wording accepts as mates, `is_mate` accepts. -/
theorem is_mate_of_is_mate_spec (a b : Record) (h : is_mate_spec a b = true) :
    is_mate a b = true := by
  have hq : (a.mpos == b.pos) = (b.pos == a.mpos) := by
    by_cases h1 : a.mpos = b.pos
    · simp [h1]
    · have h2 : ¬ b.pos = a.mpos := fun h2 => h1 h2.symm
      simp [h1, h2]
  revert h
  unfold is_mate is_mate_spec first_second_pair no_designation
  simp only [hq]
  cases flag_bit a.flag BAM_FREAD1 <;> cases flag_bit a.flag BAM_FREAD2 <;>
    cases flag_bit b.flag BAM_FREAD1 <;> cases flag_bit b.flag BAM_FREAD2 <;>
    cases flag_bit a.flag BAM_FSECONDARY <;> cases flag_bit b.flag BAM_FSECONDARY <;>
    cases (a.mtid == b.tid) <;> cases (a.pos == b.mpos) <;> cases (b.pos == a.mpos) <;>
    simp

/-! ## Counting lemmas for the mating loops -/

/-- One `add_segment` leaves the length of `complete` or adds two to it. -/
theorem add_segment_complete_length (t : Template) (r : Record) :
    (add_segment t r).2.complete.length = t.complete.length ∨
    (add_segment t r).2.complete.length = t.complete.length + 2 := by
  unfold add_segment
  split
  · exact Or.inl rfl
  · split
    · exact Or.inl rfl
    · split
      · split
        · right; simp
        · exact Or.inl rfl
      · exact Or.inl rfl

/-- The outer loop of `mate_inprogress_segments` mates some number `n` of the segments it
visits: `complete` grows by `2 * n` records and `n` segments leave `inprogress`. -/
theorem mate_loop_counts (t : Template) (bindex : Index) :
    ∀ (l kept compl kept1 compl1 : List Record),
      mate_loop t bindex l kept compl = some (kept1, compl1) →
      ∃ n : Nat, compl1.length = compl.length + 2 * n ∧
        kept1.length + n = kept.length + l.length := by
  intro l
  induction l with
  | nil =>
    intro kept compl kept1 compl1 h
    simp only [mate_loop, Option.some.injEq, Prod.mk.injEq] at h
    obtain ⟨h1, h2⟩ := h
    subst h1
    subst h2
    exact ⟨0, by simp, by simp⟩
  | cons curr rest ih =>
    intro kept compl kept1 compl1 h
    unfold mate_loop at h
    split at h
    · exact absurd h (by simp)
    · obtain ⟨n, hn1, hn2⟩ := ih _ _ _ _ h
      refine ⟨n + 1, ?_, ?_⟩
      · rw [hn1]; simp; omega
      · simp; omega
    · obtain ⟨n, hn1, hn2⟩ := ih _ _ _ _ h
      refine ⟨n, hn1, ?_⟩
      rw [hn2]; simp; omega

/-- The counts of `mate_loop` for `mate_inprogress_segments`, and its returned flag. -/
theorem mate_inprogress_segments_counts (t t1 : Template) (bindex : Index) (b : Bool)
    (h : mate_inprogress_segments t bindex = some (b, t1)) :
    ∃ n : Nat, t1.complete.length = t.complete.length + 2 * n ∧
      t1.inprogress.length + n = t.inprogress.length ∧
      (b = true ↔ 0 < t1.complete.length) := by
  unfold mate_inprogress_segments at h
  split at h
  · exact absurd h (by simp)
  · rename_i kept compl hloop
    simp only [Option.some.injEq, Prod.mk.injEq] at h
    obtain ⟨hb, ht⟩ := h
    obtain ⟨n, hn1, hn2⟩ := mate_loop_counts t bindex _ _ _ _ _ hloop
    subst ht
    subst hb
    refine ⟨n, hn1, ?_, ?_⟩
    · simpa using hn2
    · simp

/-- Every call keeps the length of `complete` even. -/
theorem call_apply_complete_even (t t1 : Template) (c : Call)
    (h : c.apply t = some t1) (he : t.complete.length % 2 = 0) :
    t1.complete.length % 2 = 0 := by
  cases c with
  | add_segment bam =>
    simp only [Call.apply, Option.some.injEq] at h
    subst h
    rcases add_segment_complete_length t bam with h1 | h1 <;> omega
  | mate_inprogress_segments bindex =>
    simp only [Call.apply] at h
    split at h
    · rename_i r hr
      simp only [Option.some.injEq] at h
      subst h
      obtain ⟨n, hn, _, _⟩ := mate_inprogress_segments_counts t r.2 bindex r.1 hr
      omega
    · exact absurd h (by simp)
  | get_complete =>
    simp only [Call.apply, Option.some.injEq] at h
    subst h
    rfl
  | get_incomplete =>
    simp only [Call.apply, Option.some.injEq] at h
    subst h
    exact he
  | cleanup =>
    simp only [Call.apply] at h
    split at h
    · rename_i l t2 hc
      simp only [Option.some.injEq] at h
      subst h
      have h2 : t2 = (cleanup t).2 := by rw [hc]
      rw [h2]
      unfold cleanup
      split
      · exact he
      · simp only [get_incomplete]
        split <;> exact he
    · exact absurd h (by simp)

/-- A sequence of calls keeps the length of `complete` even. -/
theorem run_calls_complete_even :
    ∀ (cs : List Call) (t0 t : Template), run_calls cs t0 = some t →
      t0.complete.length % 2 = 0 → t.complete.length % 2 = 0 := by
  intro cs
  induction cs with
  | nil =>
    intro t0 t h he
    simp only [run_calls, Option.some.injEq] at h
    subst h
    exact he
  | cons c cs ih =>
    intro t0 t h he
    simp only [run_calls] at h
    split at h
    · rename_i t1 h1
      exact ih t1 t h (call_apply_complete_even t0 t1 c h1 he)
    · exact absurd h (by simp)

/-! ## The finalization loop -/

/-- The loop over one template ends within a budget larger than the number of
`inprogress` segments plus one for a `complete` that was not drained. -/
theorem mate_while_terminates (bindex : Index) :
    ∀ (fuel : Nat) (t : Template),
      t.inprogress.length + (if t.complete = [] then 0 else 1) < fuel →
      (mate_while bindex fuel t).2 ≠ Run.out_of_fuel := by
  intro fuel
  induction fuel with
  | zero => intro t h; omega
  | succ n ih =>
    intro t h
    unfold mate_while
    split
    · simp
    · simp
    · rename_i t1 hm
      obtain ⟨k, hk1, hk2, hk3⟩ := mate_inprogress_segments_counts t t1 bindex true hm
      have hpos : 0 < t1.complete.length := hk3.mp rfl
      apply ih
      simp only [get_complete, if_true]
      by_cases hc : t.complete = []
      · have hl : t.complete.length = 0 := by rw [hc]; rfl
        simp only [hc, if_true] at h
        omega
      · simp only [hc, if_false] at h
        omega

/-- From a template with `complete` of even length, every pushed group is non-empty and
of even length. -/
theorem mate_while_groups_even (bindex : Index) :
    ∀ (fuel : Nat) (t : Template), t.complete.length % 2 = 0 →
      ∀ g ∈ (mate_while bindex fuel t).1, g ≠ [] ∧ g.length % 2 = 0 := by
  intro fuel
  induction fuel with
  | zero => intro t _ g hg; simp [mate_while] at hg
  | succ n ih =>
    intro t he g hg
    unfold mate_while at hg
    split at hg
    · simp at hg
    · simp at hg
    · rename_i t1 hm
      obtain ⟨k, hk1, hk2, hk3⟩ := mate_inprogress_segments_counts t t1 bindex true hm
      have hpos : 0 < t1.complete.length := hk3.mp rfl
      simp only [List.mem_cons] at hg
      rcases hg with hg | hg
      · subst hg
        simp only [get_complete]
        constructor
        · intro h0
          rw [h0] at hpos
          simp at hpos
        · omega
      · exact ih (get_complete t1).2 (by simp [get_complete]) g hg

/-- From a template with `complete` empty and at most one `inprogress` segment, every
pushed group has two records. -/
theorem mate_while_groups_two (bindex : Index) :
    ∀ (fuel : Nat) (t : Template), t.complete = [] → t.inprogress.length ≤ 1 →
      ∀ g ∈ (mate_while bindex fuel t).1, g.length = 2 := by
  intro fuel
  induction fuel with
  | zero => intro t _ _ g hg; simp [mate_while] at hg
  | succ n ih =>
    intro t hc hin g hg
    unfold mate_while at hg
    split at hg
    · simp at hg
    · simp at hg
    · rename_i t1 hm
      obtain ⟨k, hk1, hk2, hk3⟩ := mate_inprogress_segments_counts t t1 bindex true hm
      have hpos : 0 < t1.complete.length := hk3.mp rfl
      have hl : t.complete.length = 0 := by rw [hc]; rfl
      simp only [List.mem_cons] at hg
      rcases hg with hg | hg
      · subst hg
        simp only [get_complete]
        omega
      · refine ih (get_complete t1).2 (by simp [get_complete]) ?_ g hg
        simp only [get_complete]
        omega

/-- A property of the groups pushed for each template holds of all groups pushed by the
loop over the registry. -/
theorem mate_templates_groups (bindex : Index) (P : List Record → Prop)
    (Q : Template → Prop)
    (hQ : ∀ (fuel : Nat) (t : Template), Q t → ∀ g ∈ (mate_while bindex fuel t).1, P g) :
    ∀ ts : Templates, (∀ kt ∈ ts, Q kt.2) → ∀ g ∈ (mate_templates bindex ts).1, P g := by
  intro ts
  induction ts with
  | nil => intro _ g hg; simp [mate_templates] at hg
  | cons kt rest ih =>
    intro h g hg
    obtain ⟨k, t⟩ := kt
    have ht : Q t := h (k, t) (List.mem_cons_self _ _)
    have hrest : ∀ kt ∈ rest, Q kt.2 := fun kt hkt => h kt (List.mem_cons_of_mem _ hkt)
    have hw := hQ (t.inprogress.length + 2) t ht
    cases hr : (mate_while bindex (t.inprogress.length + 2) t).2 with
    | ok t1 =>
      simp only [mate_templates, hr, List.mem_append] at hg
      rcases hg with hg | hg
      · exact hw g hg
      · exact ih hrest g hg
    | undefined =>
      simp only [mate_templates, hr] at hg
      exact hw g hg
    | out_of_fuel =>
      simp only [mate_templates, hr] at hg
      exact hw g hg

/-- The loop over the registry never uses up a budget. -/
theorem mate_templates_terminates (bindex : Index) :
    ∀ ts : Templates, (mate_templates bindex ts).2 ≠ Run.out_of_fuel := by
  intro ts
  induction ts with
  | nil => simp [mate_templates]
  | cons kt rest ih =>
    obtain ⟨k, t⟩ := kt
    have hfuel : (mate_while bindex (t.inprogress.length + 2) t).2 ≠ Run.out_of_fuel := by
      apply mate_while_terminates
      split <;> omega
    cases hr : (mate_while bindex (t.inprogress.length + 2) t).2 with
    | ok t1 =>
      simp only [mate_templates, hr]
      cases hrs : (mate_templates bindex rest).2 with
      | ok ts1 => simp
      | undefined => simp
      | out_of_fuel => exact absurd hrs ih
    | undefined => simp [mate_templates, hr]
    | out_of_fuel => exact absurd hr hfuel

/-! ## The claims -/

/-- C1 (counterexample): `is_mate` is not symmetric.  `recX` names reference 2 as its
mate reference and `recY` lies on reference 2, so `is_mate(recX, recY)` is true; `recY`
names reference 5 while `recX` lies on reference 1, so `is_mate(recY, recX)` is false. -/
theorem is_mate_not_symmetric :
    is_mate recX recY = true ∧ is_mate recY recX = false := by
  decide

/-- C1 (amended): `is_mate(a, b) == is_mate(b, a)` for every pair of records in which
the two reference cross-checks agree, that is, `a`'s mate-reference-id equals `b`'s
reference id exactly when `b`'s mate-reference-id equals `a`'s reference id. -/
theorem is_mate_symmetric_of_tid (a b : Record)
    (h : a.mtid = b.tid ↔ b.mtid = a.tid) : is_mate a b = is_mate b a := by
  have ht : (a.mtid == b.tid) = (b.mtid == a.tid) := by
    by_cases h1 : a.mtid = b.tid
    · simp [h1, h.mp h1]
    · have h2 : ¬ b.mtid = a.tid := fun h2 => h1 (h.mpr h2)
      simp [h1, h2]
  have hp : (a.pos == b.mpos) = (b.mpos == a.pos) := by
    by_cases h1 : a.pos = b.mpos
    · simp [h1]
    · have h2 : ¬ b.mpos = a.pos := fun h2 => h1 h2.symm
      simp [h1, h2]
  have hq : (a.mpos == b.pos) = (b.pos == a.mpos) := by
    by_cases h1 : a.mpos = b.pos
    · simp [h1]
    · have h2 : ¬ b.pos = a.mpos := fun h2 => h1 h2.symm
      simp [h1, h2]
  unfold is_mate
  simp only [ht, hp, hq]
  cases flag_bit a.flag BAM_FREAD1 <;> cases flag_bit a.flag BAM_FREAD2 <;>
    cases flag_bit b.flag BAM_FREAD1 <;> cases flag_bit b.flag BAM_FREAD2 <;>
    cases flag_bit a.flag BAM_FSECONDARY <;> cases flag_bit b.flag BAM_FSECONDARY <;>
    cases (b.mtid == a.tid) <;> cases (b.mpos == a.pos) <;> cases (b.pos == a.mpos) <;> rfl

/-- Witness of C1 (amended): `recA1` and `recA2` name each other's reference, and they
are mates in both argument orders. -/
theorem is_mate_symmetric_of_tid_witness :
    is_mate recA1 recA2 = is_mate recA2 recA1 ∧ is_mate recA1 recA2 = true :=
  ⟨is_mate_symmetric_of_tid recA1 recA2 (by decide), by decide⟩

/-- C2 (the code at the failing input): `recA1` is a read-first segment and
`recNoDesignation` carries neither designation, so they are neither a first/second pair
nor both undesignated and the characterisation says "not mates"; `is_mate` returns true,
because `bam_read2 == mate_read1` holds when both bits are clear. -/
theorem is_mate_accepts_half_designated_pair :
    is_mate recA1 recNoDesignation = true ∧ is_mate_spec recA1 recNoDesignation = false ∧
    first_second_pair recA1 recNoDesignation = false ∧
    (no_designation recA1 && no_designation recNoDesignation) = false := by
  decide

/-- C3: two valid complementary records (one read-first and one read-second, equal
secondary flag, each lying where the other says its mate lies), added to a fresh
template in either order: the first `add_segment` returns false, the second returns
true, and afterwards `complete` is the first-added record followed by the second-added
one, with `inprogress` and `incomplete` empty. -/
theorem add_segment_complementary_pair (r1 r2 : Record)
    (hv1 : is_valid r1 = true) (hv2 : is_valid r2 = true)
    (hfs : first_second_pair r1 r2 = true)
    (hsec : flag_bit r1.flag BAM_FSECONDARY = flag_bit r2.flag BAM_FSECONDARY)
    (h12 : r1.tid = r2.mtid ∧ r1.pos = r2.mpos)
    (h21 : r2.tid = r1.mtid ∧ r2.pos = r1.mpos) :
    ((add_segment empty r1).1 = false ∧
      (add_segment (add_segment empty r1).2 r2).1 = true ∧
      (add_segment (add_segment empty r1).2 r2).2.complete = [r1, r2] ∧
      (add_segment (add_segment empty r1).2 r2).2.inprogress = [] ∧
      (add_segment (add_segment empty r1).2 r2).2.incomplete = []) ∧
    ((add_segment empty r2).1 = false ∧
      (add_segment (add_segment empty r2).2 r1).1 = true ∧
      (add_segment (add_segment empty r2).2 r1).2.complete = [r2, r1] ∧
      (add_segment (add_segment empty r2).2 r1).2.inprogress = [] ∧
      (add_segment (add_segment empty r2).2 r1).2.incomplete = []) := by
  obtain ⟨ht1, hp1⟩ := h12
  obtain ⟨ht2, hp2⟩ := h21
  have hm21 : is_mate r2 r1 = true := by
    revert hfs
    unfold is_mate first_second_pair
    rw [hsec, ht1, hp1, hp2]
    cases flag_bit r1.flag BAM_FREAD1 <;> cases flag_bit r1.flag BAM_FREAD2 <;>
      cases flag_bit r2.flag BAM_FREAD1 <;> cases flag_bit r2.flag BAM_FREAD2 <;> simp
  have hm12 : is_mate r1 r2 = true := by
    revert hfs
    unfold is_mate first_second_pair
    rw [hsec, ht2, hp1, hp2]
    cases flag_bit r1.flag BAM_FREAD1 <;> cases flag_bit r1.flag BAM_FREAD2 <;>
      cases flag_bit r2.flag BAM_FREAD1 <;> cases flag_bit r2.flag BAM_FREAD2 <;> simp
  constructor
  · simp [add_segment, hv1, hv2, empty, size, scan_inprogress, hm21]
  · simp [add_segment, hv1, hv2, empty, size, scan_inprogress, hm12]

/-- Witness of C3: the records r1 (qname A, read-first, reference 1, position 100, mate
at reference 1, position 200) and r2 (qname A, read-second, reference 1, position 200,
mate at reference 1, position 100) of the spec. -/
theorem add_segment_complementary_pair_witness :
    ((add_segment empty recA1).1 = false ∧
      (add_segment (add_segment empty recA1).2 recA2).1 = true ∧
      (add_segment (add_segment empty recA1).2 recA2).2.complete = [recA1, recA2] ∧
      (add_segment (add_segment empty recA1).2 recA2).2.inprogress = [] ∧
      (add_segment (add_segment empty recA1).2 recA2).2.incomplete = []) ∧
    ((add_segment empty recA2).1 = false ∧
      (add_segment (add_segment empty recA2).2 recA1).1 = true ∧
      (add_segment (add_segment empty recA2).2 recA1).2.complete = [recA2, recA1] ∧
      (add_segment (add_segment empty recA2).2 recA1).2.inprogress = [] ∧
      (add_segment (add_segment empty recA2).2 recA1).2.incomplete = []) :=
  add_segment_complementary_pair recA1 recA2 (by decide) (by decide) (by decide)
    (by decide) (by decide) (by decide)

/-- C4: `add_segment` appends the record to `incomplete` exactly when the record fails
the validity predicate (paired bit set, segment-unmapped clear, mate-unmapped clear,
mate position other than -1); then it returns false and leaves `inprogress` and
`complete` as they were.  A record with the paired bit clear, added to a fresh template,
leaves `incomplete` holding that record alone and the two other lists empty. -/
theorem add_segment_invalid (t : Template) (r : Record) :
    (is_valid r = true ↔
      (flag_bit r.flag BAM_FPAIRED = true ∧ flag_bit r.flag BAM_FUNMAP = false ∧
        flag_bit r.flag BAM_FMUNMAP = false ∧ r.mpos ≠ -1)) ∧
    ((add_segment t r).2.incomplete = t.incomplete ++ [r] ↔ is_valid r = false) ∧
    (is_valid r = true → (add_segment t r).2.incomplete = t.incomplete) ∧
    (is_valid r = false →
      (add_segment t r).1 = false ∧ (add_segment t r).2.inprogress = t.inprogress ∧
      (add_segment t r).2.complete = t.complete) ∧
    (flag_bit r.flag BAM_FPAIRED = false →
      (add_segment empty r).2.incomplete = [r] ∧ (add_segment empty r).2.inprogress = [] ∧
      (add_segment empty r).2.complete = []) := by
  have hvalid : is_valid r = true → (add_segment t r).2.incomplete = t.incomplete := by
    intro hv
    unfold add_segment
    simp only [hv, Bool.not_true, Bool.false_eq_true, if_false]
    split
    · rfl
    · split
      · split <;> rfl
      · rfl
  refine ⟨?_, ?_, hvalid, ?_, ?_⟩
  · simp [is_valid, and_assoc]
  · constructor
    · intro h
      cases hv : is_valid r with
      | false => rfl
      | true =>
        have h2 := hvalid hv
        rw [h2] at h
        simp at h
    · intro hv
      simp [add_segment, hv]
  · intro hv
    simp [add_segment, hv]
  · intro hp
    have hv : is_valid r = false := by simp [is_valid, hp]
    simp [add_segment, hv, empty]

/-- Witness of C4: the record `recUnpaired`, whose paired bit is clear, added to a fresh
template. -/
theorem add_segment_invalid_witness :
    (add_segment empty recUnpaired).2.incomplete = [recUnpaired] ∧
    (add_segment empty recUnpaired).2.inprogress = [] ∧
    (add_segment empty recUnpaired).2.complete = [] :=
  (add_segment_invalid empty recUnpaired).2.2.2.2 (by decide)

/-- C5: for a valid record `r`: when `inprogress` is `pre ++ m :: post` with `m` the
first entry such that `is_mate(r, m)`, `add_segment(r)` returns true, `inprogress`
becomes `pre ++ post`, `complete` gains `m` and then `r` at its end, and nothing else
changes; when no entry of `inprogress` satisfies `is_mate(r, m)`, it returns false,
`inprogress` gains `r` at its end and `complete` and `incomplete` are unchanged. -/
theorem add_segment_valid (t : Template) (r : Record) (hv : is_valid r = true) :
    (∀ (pre : List Record) (m : Record) (post : List Record),
      t.inprogress = pre ++ m :: post → (∀ x ∈ pre, is_mate r x = false) →
      is_mate r m = true →
      add_segment t r =
        (true, { t with inprogress := pre ++ post, complete := t.complete ++ [m, r] })) ∧
    ((∀ x ∈ t.inprogress, is_mate r x = false) →
      (add_segment t r).1 = false ∧
      (add_segment t r).2.inprogress = t.inprogress ++ [r] ∧
      (add_segment t r).2.complete = t.complete ∧
      (add_segment t r).2.incomplete = t.incomplete) := by
  constructor
  · intro pre m post hin hpre hm
    have hscan := scan_inprogress_found r m post pre hpre hm
    have hlen : 0 < t.inprogress.length := by rw [hin]; simp
    have hsize : t.size ≠ 0 := by unfold size; omega
    unfold add_segment
    simp only [hv, Bool.not_true, Bool.false_eq_true, if_false, hsize, gt_iff_lt, hlen,
      if_true]
    rw [hin, hscan]
  · intro hno
    have hscan := scan_inprogress_none r t.inprogress hno
    unfold add_segment
    simp only [hv, Bool.not_true, Bool.false_eq_true, if_false]
    split
    · exact ⟨rfl, rfl, rfl, rfl⟩
    · split
      · rw [hscan]
        exact ⟨rfl, rfl, rfl, rfl⟩
      · exact ⟨rfl, rfl, rfl, rfl⟩

/-- Witness of C5: with `recA1` waiting in `inprogress`, adding the valid record
`recA2` removes `recA1` and appends `recA1`, `recA2` to `complete`. -/
theorem add_segment_valid_witness :
    add_segment (add_segment empty recA1).2 recA2 =
      (true, { (add_segment empty recA1).2 with
        inprogress := [] ++ [], complete := [] ++ [recA1, recA2] }) :=
  (add_segment_valid (add_segment empty recA1).2 recA2 (by decide)).1 [] recA1 []
    (by decide) (by decide) (by decide)

/-- C6: on a template whose `complete` is not empty, `cleanup` fails with the message
"Error in cleanup: 'complete' not empty" and the template is exactly as before the call;
`cleanup` fails in no other case. -/
theorem cleanup_fails_iff (t : Template) :
    (t.complete ≠ [] →
      cleanup t = (Except.error "Error in cleanup: 'complete' not empty", t)) ∧
    (∀ msg : String, (cleanup t).1 = Except.error msg → t.complete ≠ []) := by
  constructor
  · intro h
    have hl : t.complete.length ≠ 0 := by
      intro h0
      exact h (List.length_eq_zero.mp h0)
    simp [cleanup, hl]
  · intro msg hmsg hc
    have hl : t.complete.length = 0 := by rw [hc]; rfl
    simp [cleanup, hl] at hmsg

/-- Witness of C6: `cleanup` on the template that holds the completed pair `recA1`,
`recA2` fails and returns the template as it was. -/
theorem cleanup_fails_iff_witness :
    cleanup (add_segment (add_segment empty recA1).2 recA2).2 =
      (Except.error "Error in cleanup: 'complete' not empty",
        (add_segment (add_segment empty recA1).2 recA2).2) :=
  (cleanup_fails_iff (add_segment (add_segment empty recA1).2 recA2).2).1 (by decide)

/-- C7: on a template whose `complete` is empty, `cleanup` succeeds and returns the
former `incomplete` followed by the former `inprogress`, leaving both lists empty; a
second `cleanup` right after it returns the empty list without error. -/
theorem cleanup_succeeds (t : Template) (h : t.complete = []) :
    cleanup t =
      (Except.ok (t.incomplete ++ t.inprogress),
        { t with inprogress := [], incomplete := [] }) ∧
    (cleanup (cleanup t).2).1 = Except.ok [] ∧
    (cleanup (cleanup t).2).2 = (cleanup t).2 := by
  have hl : t.complete.length = 0 := by rw [h]; rfl
  have h1 : cleanup t =
      (Except.ok (t.incomplete ++ t.inprogress),
        { t with inprogress := [], incomplete := [] }) := by
    cases hin : t.inprogress with
    | nil => simp [cleanup, hl, hin, get_incomplete]
    | cons x xs => simp [cleanup, hl, hin, get_incomplete]
  refine ⟨h1, ?_, ?_⟩
  · rw [h1]
    simp [cleanup, hl, get_incomplete]
  · rw [h1]
    simp [cleanup, hl, get_incomplete]

/-- Witness of C7: a template holding `recA1` in `inprogress` and `recUnpaired` in
`incomplete`, with `complete` empty. -/
theorem cleanup_succeeds_witness :
    (add_segment (add_segment empty recUnpaired).2 recA1).2.complete = [] ∧
    (cleanup (add_segment (add_segment empty recUnpaired).2 recA1).2).1 =
      Except.ok [recUnpaired, recA1] ∧
    (cleanup (cleanup (add_segment (add_segment empty recUnpaired).2 recA1).2).2).1 =
      Except.ok [] :=
  have h := cleanup_succeeds (add_segment (add_segment empty recUnpaired).2 recA1).2
    (by decide)
  ⟨by decide, by rw [h.1]; rfl, h.2.1⟩

/-- C8: `get_complete` returns the current `complete` and leaves `complete` empty and
the two other lists unchanged; `get_incomplete` returns the current `incomplete` and
leaves `incomplete` empty and the two other lists unchanged; repeating either getter at
once returns the empty list. -/
theorem getters_drain (t : Template) :
    ((get_complete t).1 = t.complete ∧ (get_complete t).2.complete = [] ∧
      (get_complete t).2.inprogress = t.inprogress ∧
      (get_complete t).2.incomplete = t.incomplete ∧
      (get_complete (get_complete t).2).1 = []) ∧
    ((get_incomplete t).1 = t.incomplete ∧ (get_incomplete t).2.incomplete = [] ∧
      (get_incomplete t).2.inprogress = t.inprogress ∧
      (get_incomplete t).2.complete = t.complete ∧
      (get_incomplete (get_incomplete t).2).1 = []) :=
  ⟨⟨rfl, rfl, rfl, rfl, rfl⟩, ⟨rfl, rfl, rfl, rfl, rfl⟩⟩

/-- C9: in every template state reached from the empty template by a sequence of
`add_segment`, `mate_inprogress_segments`, `get_complete`, `get_incomplete` and
successful `cleanup` calls, the length of `complete` is a multiple of two. -/
theorem complete_length_even (cs : List Call) (t : Template)
    (h : run_calls cs empty = some t) : t.complete.length % 2 = 0 :=
  run_calls_complete_even cs empty t h rfl

/-- Witness of C9: after `recS1` and `recS2` were added and `mate_inprogress_segments`
found both mates through `pointIndex`, `complete` holds four records. -/
theorem complete_length_even_witness :
    run_calls [Call.add_segment recS1, Call.add_segment recS2,
        Call.mate_inprogress_segments pointIndex, Call.get_incomplete] empty =
      some { rg := none, qname := some "B", inprogress := [],
             complete := [recM1, recS1, recM2, recS2], incomplete := [] } ∧
    [recM1, recS1, recM2, recS2].length % 2 = 0 :=
  ⟨by decide,
    complete_length_even
      [Call.add_segment recS1, Call.add_segment recS2,
        Call.mate_inprogress_segments pointIndex, Call.get_incomplete]
      { rg := none, qname := some "B", inprogress := [],
        complete := [recM1, recS1, recM2, recS2], incomplete := [] } (by decide)⟩

/-- C10 (counterexample): template B holds `recS1` and `recS2` in `inprogress`, and the
point queries find the mate of each; `mate_inprogress_segments` pairs both in one call
and the single `get_complete` that follows is pushed as one group of four records. -/
theorem finalization_group_of_four :
    (mate_templates pointIndex [("B", tplTwoWaiting)]).1 =
      [[recM1, recS1, recM2, recS2]] ∧
    ¬ ∀ g ∈ (mate_templates pointIndex [("B", tplTwoWaiting)]).1, g.length = 2 := by
  decide

/-! ## The batching loop -/

/-- Processing a list that starts with `r` is processing `r` and then the rest. -/
theorem process_all_cons (process : Record → BamIterator → BamIterator)
    (base : BamIterator) (r : Record) (rs : List Record) :
    process_all process base (r :: rs) = process_all process (process r base) rs := rfl

/-- One turn of the loop after a read that does not meet the stop test: the record just
read is processed next. -/
theorem iterate_loop_continue (process : Record → BamIterator → BamIterator)
    (bam next : Record) (rest : List Record) (base : BamIterator)
    (h : batch_boundary (process bam base) bam next = false) :
    iterate_loop process bam (next :: rest) base =
      iterate_loop process next rest (process bam base) := by
  simp only [batch_boundary, Bool.and_eq_false_imp, decide_eq_true_eq,
    decide_eq_false_iff_not] at h
  conv_lhs => unfold iterate_loop
  by_cases hc : (process bam base).complete.length ≠ 0
  · rw [if_pos hc, if_neg (h hc)]
  · rw [if_neg hc]

/-- One turn of the loop after a read that meets the stop test: the loop ends with the
record just read in the buffer. -/
theorem iterate_loop_stop (process : Record → BamIterator → BamIterator)
    (bam next : Record) (rest : List Record) (base : BamIterator)
    (h : batch_boundary (process bam base) bam next = true) :
    iterate_loop process bam (next :: rest) base =
      { base := process bam base, iter := rest, bam := some next, iter_done := false } := by
  simp only [batch_boundary, Bool.and_eq_true, decide_eq_true_eq] at h
  conv_lhs => unfold iterate_loop
  rw [if_pos h.1, if_pos h.2]

/-- The loop runs to the end of the cursor when no read meets the stop test. -/
theorem iterate_loop_exhausts (process : Record → BamIterator → BamIterator) :
    ∀ (cursor : List Record) (bam : Record) (base : BamIterator),
      (∀ (pre1 : List Record) (a b : Record) (post1 : List Record),
        bam :: cursor = pre1 ++ a :: b :: post1 →
        batch_boundary (process_all process base (pre1 ++ [a])) a b = false) →
      iterate_loop process bam cursor base =
        { base := process_all process base (bam :: cursor), iter := [], bam := none,
          iter_done := true } := by
  intro cursor
  induction cursor with
  | nil => intro bam base _; rfl
  | cons next rest ih =>
    intro bam base h
    have h0 : batch_boundary (process bam base) bam next = false := h [] bam next rest rfl
    have hrest : ∀ (pre1 : List Record) (a b : Record) (post1 : List Record),
        next :: rest = pre1 ++ a :: b :: post1 →
        batch_boundary (process_all process (process bam base) (pre1 ++ [a])) a b = false := by
      intro pre1 a b post1 heq
      have := h (bam :: pre1) a b post1 (by rw [heq]; rfl)
      simpa [process_all_cons] using this
    rw [iterate_loop_continue process bam next rest base h0,
      ih next (process bam base) hrest]
    rfl

/-- The loop stops at the first read that meets the stop test, leaving the record just
read in the buffer. -/
theorem iterate_loop_stops (process : Record → BamIterator → BamIterator) :
    ∀ (pre : List Record) (bam : Record) (cursor : List Record) (base : BamIterator)
      (prev next : Record) (post : List Record),
      bam :: cursor = pre ++ prev :: next :: post →
      (∀ (pre1 : List Record) (a b : Record) (post1 : List Record),
        pre ++ [prev] = pre1 ++ a :: b :: post1 →
        batch_boundary (process_all process base (pre1 ++ [a])) a b = false) →
      batch_boundary (process_all process base (pre ++ [prev])) prev next = true →
      iterate_loop process bam cursor base =
        { base := process_all process base (pre ++ [prev]), iter := post, bam := some next,
          iter_done := false } := by
  intro pre
  induction pre with
  | nil =>
    intro bam cursor base prev next post heq _ hstop
    simp only [List.nil_append, List.cons.injEq] at heq
    obtain ⟨hb, hc⟩ := heq
    subst hb
    subst hc
    exact iterate_loop_stop process bam next post base hstop
  | cons x pre ih =>
    intro bam cursor base prev next post heq hno hstop
    simp only [List.cons_append, List.cons.injEq] at heq
    obtain ⟨hb, hc⟩ := heq
    subst hb
    subst hc
    have hstop1 : batch_boundary (process_all process (process bam base) (pre ++ [prev]))
        prev next = true := hstop
    have hno1 : ∀ (pre1 : List Record) (a b : Record) (post1 : List Record),
        pre ++ [prev] = pre1 ++ a :: b :: post1 →
        batch_boundary (process_all process (process bam base) (pre1 ++ [a])) a b = false := by
      intro pre1 a b post1 h
      exact hno (bam :: pre1) a b post1 (by rw [List.cons_append, h]; rfl)
    cases pre with
    | nil =>
      have h0 : batch_boundary (process bam base) bam prev = false :=
        hno [] bam prev [] rfl
      rw [List.nil_append, iterate_loop_continue process bam prev (next :: post) base h0]
      exact ih prev (next :: post) (process bam base) prev next post rfl hno1 hstop1
    | cons y ys =>
      have h0 : batch_boundary (process bam base) bam y = false :=
        hno [] bam y (ys ++ [prev]) rfl
      rw [List.cons_append, iterate_loop_continue process bam y _ base h0]
      exact ih y (ys ++ prev :: next :: post) (process bam base) prev next post rfl
        hno1 hstop1

/-- A call that is not finished runs the loop on the first pending record. -/
theorem iterate_complete_eq_loop (process : Record → BamIterator → BamIterator)
    (it : State) (bam : Record) (cursor : List Record) (hnd : it.iter_done = false)
    (hp : pending it = bam :: cursor) :
    iterate_complete process it = iterate_loop process bam cursor it.base := by
  unfold iterate_complete
  rw [hnd]
  simp only [Bool.false_eq_true, if_false]
  unfold pending at hp
  cases hb : it.bam with
  | none =>
    rw [hb] at hp
    simp only at hp
    rw [hp]
  | some b =>
    rw [hb] at hp
    simp only [List.cons.injEq] at hp
    rw [hp.1, hp.2]

/-! ## Range fetching -/

/-- The lookup loop ends at the number of targets exactly when the name is absent. -/
theorem lookup_tid_eq_length (spc : String) :
    ∀ names : List String, lookup_tid spc names = names.length ↔ spc ∉ names := by
  intro names
  induction names with
  | nil => simp [lookup_tid]
  | cons name rest ih =>
    have hle : ∀ l : List String, lookup_tid spc l ≤ l.length := by
      intro l
      induction l with
      | nil => simp [lookup_tid]
      | cons x xs ihx =>
        unfold lookup_tid
        split
        · omega
        · simp only [List.length_cons]; omega
    unfold lookup_tid
    by_cases h : spc = name
    · simp [h]
    · have hb : (spc == name) = false := by simpa using h
      simp only [hb, Bool.false_eq_true, if_false, List.length_cons, List.mem_cons, h,
        false_or]
      rw [← ih]
      omega

/-- The fetch loop over `pre ++ bad :: post`, where every name of `pre` is a target and
the name of `bad` is not, ends with status -1 in the state the loop over `pre` alone
ends in. -/
theorem scan_bam_fetch_loop_absent
    (fetch : Bool → Int → Int → Int → BAM_DATA → List Record × BAM_DATA)
    (finish1 : Option (BAM_DATA → BAM_DATA)) (target_name : List String) (n_tot : Int)
    (asMates : Bool) (spc : String) (start end0 : Int) (post : List (String × Int × Int))
    (habs : spc ∉ target_name) :
    ∀ (pre : List (String × Int × Int)) (bd : BAM_DATA) (fetched : List Record),
      (∀ x ∈ pre, x.1 ∈ target_name) →
      (scan_bam_fetch_loop fetch finish1 target_name n_tot asMates
          (pre ++ (spc, start, end0) :: post) bd fetched).status = -1 ∧
      (scan_bam_fetch_loop fetch finish1 target_name n_tot asMates
          (pre ++ (spc, start, end0) :: post) bd fetched).bd =
        (scan_bam_fetch_loop fetch finish1 target_name n_tot asMates pre bd fetched).bd ∧
      (scan_bam_fetch_loop fetch finish1 target_name n_tot asMates
          (pre ++ (spc, start, end0) :: post) bd fetched).fetched =
        (scan_bam_fetch_loop fetch finish1 target_name n_tot asMates pre bd fetched).fetched := by
  intro pre
  induction pre with
  | nil =>
    intro bd fetched _
    have h := (lookup_tid_eq_length spc target_name).mpr habs
    simp [scan_bam_fetch_loop, h]
  | cons x pre ih =>
    intro bd fetched hpre
    obtain ⟨name, s, e⟩ := x
    have hin : name ∈ target_name := hpre (name, s, e) (List.mem_cons_self _ _)
    have hne : lookup_tid name target_name ≠ target_name.length := by
      intro h
      exact ((lookup_tid_eq_length name target_name).mp h) hin
    have hrest : ∀ y ∈ pre, y.1 ∈ target_name :=
      fun y hy => hpre y (List.mem_cons_of_mem _ hy)
    simp only [List.cons_append, scan_bam_fetch_loop, hne, if_false]
    exact ih _ _ hrest

/-! ## The template identity -/

/-- On a template that holds no record at all and has no read group recorded, the first
valid segment sets the identity: `qname` and `rg` become those of the record. -/
theorem add_segment_records_identity_of_size_zero (t : Template) (r : Record)
    (hv : is_valid r = true) (hsize : t.size = 0) (hrg : t.rg = none) :
    add_segment t r =
      (false, { t with qname := some r.qname, rg := r.rg, inprogress := [r] }) := by
  have hin : t.inprogress = [] := by
    apply List.length_eq_zero.mp
    unfold size at hsize
    omega
  unfold add_segment
  simp only [hv, Bool.not_true, Bool.false_eq_true, if_false, hsize, if_true, hin,
    List.nil_append, hrg]
  cases r.rg <;> rfl

/-! ## The pair structure of `complete` -/

/-- Appending a mated valid pair to an even-length list of mated pairs. -/
theorem pairs_mated_append (a b : Record) (ha : is_valid a = true)
    (hb : is_valid b = true) (hm : is_mate b a = true) :
    ∀ c : List Record, c.length % 2 = 0 → pairs_mated c = true →
      pairs_mated (c ++ [a, b]) = true := by
  intro c
  induction c using pairs_mated.induct with
  | case1 x y rest ih =>
    intro hlen hp
    simp only [List.length_cons] at hlen
    simp only [pairs_mated, Bool.and_eq_true] at hp
    simp only [List.cons_append, pairs_mated, Bool.and_eq_true]
    exact ⟨hp.1, ih (by omega) hp.2⟩
  | case2 c hne =>
    intro hlen _
    cases c with
    | nil => simp [pairs_mated, ha, hb, hm]
    | cons x xs =>
      cases xs with
      | nil => simp at hlen
      | cons y ys => exact absurd rfl (hne x y ys)

/-- The indexed reading of `pairs_mated`: the records at places `2k` and `2k+1`. -/
theorem pairs_mated_index :
    ∀ c : List Record, pairs_mated c = true →
      ∀ (k : Nat) (a b : Record), c.get? (2 * k) = some a → c.get? (2 * k + 1) = some b →
        is_valid a = true ∧ is_valid b = true ∧ is_mate b a = true := by
  intro c
  induction c using pairs_mated.induct with
  | case1 x y rest ih =>
    intro hp k a b h0 h1
    simp only [pairs_mated, Bool.and_eq_true] at hp
    cases k with
    | zero =>
      simp only [Nat.mul_zero, List.get?, Option.some.injEq] at h0
      simp only [Nat.mul_zero, Nat.zero_add, List.get?, Option.some.injEq] at h1
      subst h0
      subst h1
      exact ⟨hp.1.1.1, hp.1.1.2, hp.1.2⟩
    | succ n =>
      have e0 : 2 * (n + 1) = (2 * n + 1) + 1 := by omega
      have e1 : 2 * (n + 1) + 1 = (2 * n + 1 + 1) + 1 := by omega
      rw [e0] at h0
      rw [e1] at h1
      simp only [List.get?] at h0 h1
      exact ih hp.2 n a b h0 h1
  | case2 c hne =>
    intro _ k a b h0 h1
    cases c with
    | nil => simp at h0
    | cons x xs =>
      cases xs with
      | nil =>
        simp [List.get?] at h1
      | cons y ys => exact absurd rfl (hne x y ys)

/-- What the scan of `add_segment` finds is a mate taken from the list, and the list
that remains is part of the old one. -/
theorem scan_inprogress_some (bam : Record) :
    ∀ (l : List Record) (m : Record) (rest : List Record),
      scan_inprogress bam l = some (m, rest) →
      is_mate bam m = true ∧ m ∈ l ∧ ∀ x ∈ rest, x ∈ l := by
  intro l
  induction l with
  | nil => intro m rest h; simp [scan_inprogress] at h
  | cons y ys ih =>
    intro m rest h
    unfold scan_inprogress at h
    by_cases hm : is_mate bam y = true
    · simp only [hm, if_true, Option.some.injEq, Prod.mk.injEq] at h
      obtain ⟨h1, h2⟩ := h
      subst h1
      subst h2
      exact ⟨hm, List.mem_cons_self _ _, fun x hx => List.mem_cons_of_mem _ hx⟩
    · simp only [hm, if_false] at h
      cases hs : scan_inprogress bam ys with
      | none => simp [hs] at h
      | some p =>
        obtain ⟨m0, rest0⟩ := p
        simp only [hs, Option.some.injEq, Prod.mk.injEq] at h
        obtain ⟨rfl, rfl⟩ := h
        obtain ⟨i1, i2, i3⟩ := ih _ _ hs
        refine ⟨i1, List.mem_cons_of_mem _ i2, ?_⟩
        intro x hx
        rcases List.mem_cons.mp hx with hx | hx
        · rw [hx]; exact List.mem_cons_self _ _
        · exact List.mem_cons_of_mem _ (i3 x hx)

/-- The record on which the point-query loop sets `mate_found` is valid and a mate. -/
theorem find_mate_some (t : Template) (curr : Record) :
    ∀ (l : List Record) (bam : Record), find_mate t curr l = some (some bam) →
      is_valid bam = true ∧ is_mate curr bam = true := by
  intro l
  induction l with
  | nil => intro bam h; simp [find_mate] at h
  | cons y ys ih =>
    intro bam h
    unfold find_mate at h
    split at h
    · simp at h
    · split at h
      · rename_i hv
        split at h
        · simp at h
        · split at h
          · rename_i hm
            simp only [Option.some.injEq] at h
            subst h
            exact ⟨hv, hm⟩
          · exact ih bam h
        · exact ih bam h
      · exact ih bam h

/-- The outer loop of `mate_inprogress_segments` keeps `inprogress` valid and `complete`
a list of mated pairs. -/
theorem mate_loop_pairs (t : Template) (bindex : Index) :
    ∀ (l kept compl kept1 compl1 : List Record),
      mate_loop t bindex l kept compl = some (kept1, compl1) →
      (∀ x ∈ l, is_valid x = true) → (∀ x ∈ kept, is_valid x = true) →
      compl.length % 2 = 0 → pairs_mated compl = true →
      (∀ x ∈ kept1, is_valid x = true) ∧ pairs_mated compl1 = true := by
  intro l
  induction l with
  | nil =>
    intro kept compl kept1 compl1 h _ hk _ hp
    simp only [mate_loop, Option.some.injEq, Prod.mk.injEq] at h
    obtain ⟨h1, h2⟩ := h
    subst h1
    subst h2
    exact ⟨hk, hp⟩
  | cons curr rest ih =>
    intro kept compl kept1 compl1 h hl hk hlen hp
    have hcurr : is_valid curr = true := hl curr (List.mem_cons_self _ _)
    have hrest : ∀ x ∈ rest, is_valid x = true :=
      fun x hx => hl x (List.mem_cons_of_mem _ hx)
    unfold mate_loop at h
    split at h
    · simp at h
    · rename_i bam hf
      obtain ⟨hv, hm⟩ := find_mate_some t curr _ bam hf
      exact ih kept (compl ++ [bam, curr]) kept1 compl1 h hrest hk
        (by simp only [List.length_append, List.length_cons, List.length_nil]; omega)
        (pairs_mated_append bam curr hv hcurr hm compl hlen hp)
    · refine ih (kept ++ [curr]) compl kept1 compl1 h hrest ?_ hlen hp
      intro x hx
      rcases List.mem_append.mp hx with hx | hx
      · exact hk x hx
      · simp only [List.mem_singleton] at hx
        rw [hx]; exact hcurr

/-- `add_segment` keeps `complete` an even-length list of mated valid pairs and
`inprogress` a list of valid records. -/
theorem add_segment_pairs (t : Template) (r : Record)
    (hlen : t.complete.length % 2 = 0) (hp : pairs_mated t.complete = true)
    (hin : ∀ x ∈ t.inprogress, is_valid x = true) :
    (add_segment t r).2.complete.length % 2 = 0 ∧
    pairs_mated (add_segment t r).2.complete = true ∧
    ∀ x ∈ (add_segment t r).2.inprogress, is_valid x = true := by
  have happ : is_valid r = true → ∀ x ∈ t.inprogress ++ [r], is_valid x = true := by
    intro hv x hx
    rcases List.mem_append.mp hx with hx | hx
    · exact hin x hx
    · simp only [List.mem_singleton] at hx
      rw [hx]; exact hv
  unfold add_segment
  cases hv : is_valid r with
  | false => exact ⟨hlen, hp, hin⟩
  | true =>
    simp only [Bool.not_true, Bool.false_eq_true, if_false]
    split
    · exact ⟨hlen, hp, happ hv⟩
    · split
      · cases hs : scan_inprogress r t.inprogress with
        | none => exact ⟨hlen, hp, happ hv⟩
        | some p =>
          obtain ⟨m, rest⟩ := p
          obtain ⟨hm, hmem, hsub⟩ := scan_inprogress_some r t.inprogress m rest hs
          refine ⟨?_, pairs_mated_append m r (hin m hmem) hv hm t.complete hlen hp, ?_⟩
          · simp only [List.length_append, List.length_cons, List.length_nil]; omega
          · exact fun x hx => hin x (hsub x hx)
      · exact ⟨hlen, hp, happ hv⟩

/-- `mate_inprogress_segments` keeps the same three properties. -/
theorem mate_inprogress_segments_pairs (t t1 : Template) (bindex : Index) (b : Bool)
    (h : mate_inprogress_segments t bindex = some (b, t1))
    (hlen : t.complete.length % 2 = 0) (hp : pairs_mated t.complete = true)
    (hin : ∀ x ∈ t.inprogress, is_valid x = true) :
    t1.complete.length % 2 = 0 ∧ pairs_mated t1.complete = true ∧
    ∀ x ∈ t1.inprogress, is_valid x = true := by
  obtain ⟨n, hn, _, _⟩ := mate_inprogress_segments_counts t t1 bindex b h
  unfold mate_inprogress_segments at h
  cases hl : mate_loop t bindex t.inprogress [] t.complete with
  | none => simp [hl] at h
  | some p =>
    obtain ⟨kept, compl⟩ := p
    simp only [hl, Option.some.injEq, Prod.mk.injEq] at h
    obtain ⟨_, ht⟩ := h
    obtain ⟨h1, h2⟩ := mate_loop_pairs t bindex t.inprogress [] t.complete kept compl hl hin
      (by simp) hlen hp
    subst ht
    exact ⟨by omega, h2, h1⟩

/-- Every call, a failing `cleanup` among them, keeps the three properties. -/
theorem call_state_after_pairs (t t1 : Template) (c : Call)
    (h : c.state_after t = some t1)
    (hlen : t.complete.length % 2 = 0) (hp : pairs_mated t.complete = true)
    (hin : ∀ x ∈ t.inprogress, is_valid x = true) :
    t1.complete.length % 2 = 0 ∧ pairs_mated t1.complete = true ∧
    ∀ x ∈ t1.inprogress, is_valid x = true := by
  cases c with
  | add_segment bam =>
    simp only [Call.state_after, Call.apply, Option.some.injEq] at h
    subst h
    exact add_segment_pairs t bam hlen hp hin
  | mate_inprogress_segments bindex =>
    simp only [Call.state_after, Call.apply] at h
    cases hm : t.mate_inprogress_segments bindex with
    | none => simp [hm] at h
    | some r =>
      simp only [hm, Option.some.injEq] at h
      subst h
      exact mate_inprogress_segments_pairs t r.2 bindex r.1 hm hlen hp hin
  | get_complete =>
    simp only [Call.state_after, Call.apply, Option.some.injEq] at h
    subst h
    exact ⟨rfl, rfl, hin⟩
  | get_incomplete =>
    simp only [Call.state_after, Call.apply, Option.some.injEq] at h
    subst h
    exact ⟨hlen, hp, hin⟩
  | cleanup =>
    simp only [Call.state_after, Option.some.injEq] at h
    subst h
    unfold Template.cleanup
    split
    · exact ⟨hlen, hp, hin⟩
    · simp only [get_incomplete]
      split
      · exact ⟨hlen, hp, by simp⟩
      · exact ⟨hlen, hp, hin⟩

/-- A sequence of calls keeps the three properties. -/
theorem run_calls_raising_pairs :
    ∀ (cs : List Call) (t0 t : Template), run_calls_raising cs t0 = some t →
      t0.complete.length % 2 = 0 → pairs_mated t0.complete = true →
      (∀ x ∈ t0.inprogress, is_valid x = true) →
      pairs_mated t.complete = true ∧ ∀ x ∈ t.inprogress, is_valid x = true := by
  intro cs
  induction cs with
  | nil =>
    intro t0 t h _ hp hin
    simp only [run_calls_raising, Option.some.injEq] at h
    subst h
    exact ⟨hp, hin⟩
  | cons c cs ih =>
    intro t0 t h hlen hp hin
    simp only [run_calls_raising] at h
    cases hc : c.state_after t0 with
    | none => simp [hc] at h
    | some t1 =>
      simp only [hc] at h
      obtain ⟨h1, h2, h3⟩ := call_state_after_pairs t0 t1 c hc hlen hp hin
      exact ih t1 t h h1 h2 h3

/-! ## Range fetching, in order -/

/-- The lookup loop computes the position of the first target name equal to `spc`. -/
theorem lookup_tid_eq_indexOf (spc : String) :
    ∀ names : List String, lookup_tid spc names = names.indexOf spc := by
  intro names
  induction names with
  | nil => rfl
  | cons name rest ih =>
    unfold lookup_tid
    by_cases h : spc = name
    · subst h
      simp
    · have hb : (spc == name) = false := by simpa using h
      have hne : name ≠ spc := fun e => h e.symm
      rw [List.indexOf_cons_ne _ hne, ← ih]
      simp [hb]

/-- One turn of the fetch loop on a range whose name is a target: the range is fetched
and finished, and the loop goes on with the ranges that remain. -/
theorem scan_bam_fetch_loop_present
    (fetch : Bool → Int → Int → Int → BAM_DATA → List Record × BAM_DATA)
    (finish1 : Option (BAM_DATA → BAM_DATA)) (target_name : List String) (n_tot : Int)
    (asMates : Bool) (name : String) (s e : Int) (rest : List (String × Int × Int))
    (bd : BAM_DATA) (fetched : List Record) (hin : name ∈ target_name) :
    scan_bam_fetch_loop fetch finish1 target_name n_tot asMates ((name, s, e) :: rest)
        bd fetched =
      scan_bam_fetch_loop fetch finish1 target_name n_tot asMates rest
        (fetch_range fetch finish1 target_name asMates (fetched, bd) (name, s, e)).2
        (fetch_range fetch finish1 target_name asMates (fetched, bd) (name, s, e)).1 := by
  have hne : lookup_tid name target_name ≠ target_name.length := by
    intro h
    exact ((lookup_tid_eq_length name target_name).mp h) hin
  rw [lookup_tid_eq_indexOf] at hne
  conv_lhs => unfold scan_bam_fetch_loop
  simp only [fetch_range, lookup_tid_eq_indexOf]
  rw [if_neg hne]

/-- The fetch loop over `pre ++ bad :: post`, where every name of `pre` is a target and
the name of `bad` is not, ends with status -1 after the ranges of `pre` have been
fetched and finished in order. -/
theorem scan_bam_fetch_loop_absent_eq
    (fetch : Bool → Int → Int → Int → BAM_DATA → List Record × BAM_DATA)
    (finish1 : Option (BAM_DATA → BAM_DATA)) (target_name : List String) (n_tot : Int)
    (asMates : Bool) (spc : String) (start end0 : Int) (post : List (String × Int × Int))
    (habs : spc ∉ target_name) :
    ∀ (pre : List (String × Int × Int)) (bd : BAM_DATA) (fetched : List Record),
      (∀ x ∈ pre, x.1 ∈ target_name) →
      scan_bam_fetch_loop fetch finish1 target_name n_tot asMates
          (pre ++ (spc, start, end0) :: post) bd fetched =
        { status := -1,
          bd := (pre.foldl (fetch_range fetch finish1 target_name asMates) (fetched, bd)).2,
          fetched :=
            (pre.foldl (fetch_range fetch finish1 target_name asMates) (fetched, bd)).1 } := by
  intro pre
  induction pre with
  | nil =>
    intro bd fetched _
    have h := (lookup_tid_eq_length spc target_name).mpr habs
    simp [scan_bam_fetch_loop, h]
  | cons x pre ih =>
    intro bd fetched hpre
    obtain ⟨name, s, e⟩ := x
    have hin : name ∈ target_name := hpre (name, s, e) (List.mem_cons_self _ _)
    have hrest : ∀ y ∈ pre, y.1 ∈ target_name :=
      fun y hy => hpre y (List.mem_cons_of_mem _ hy)
    rw [List.cons_append,
      scan_bam_fetch_loop_present fetch finish1 target_name n_tot asMates name s e _ bd
        fetched hin,
      ih _ _ hrest, List.foldl_cons]

/-! ## The groups pushed by finalization -/

/-- `is_template` reads only the recorded identity of the template. -/
theorem is_template_congr (t t1 : Template) (hrg : t1.rg = t.rg)
    (hq : t1.qname = t.qname) (bam : Record) : is_template t1 bam = is_template t bam := by
  unfold is_template readgroup_q qname_q
  rw [hrg, hq]

/-- The point-query loop reads only the recorded identity of the template. -/
theorem find_mate_congr (t t1 : Template) (hrg : t1.rg = t.rg) (hq : t1.qname = t.qname)
    (curr : Record) : ∀ l : List Record, find_mate t1 curr l = find_mate t curr l := by
  intro l
  induction l with
  | nil => rfl
  | cons bam rest ih =>
    unfold find_mate
    rw [is_template_congr t t1 hrg hq bam, ih]

/-- When the point-query loop of the code is defined, it finds what the spec's scan
finds: the first delivered record that is valid, of the same template and a mate. -/
theorem find_mate_eq_point_query (t : Template) (bindex : Index) (curr : Record)
    (r : Option Record)
    (h : find_mate t curr (bindex curr.mtid curr.mpos (curr.mpos + 1)) = some r) :
    r = point_query_mate t bindex curr := by
  unfold point_query_mate
  generalize bindex curr.mtid curr.mpos (curr.mpos + 1) = l at h
  by_cases hm : curr.mpos = -1
  · rw [if_pos hm]
    cases l with
    | nil => simpa [find_mate] using h.symm
    | cons bam rest => simpa [find_mate, hm] using h.symm
  · rw [if_neg hm]
    induction l with
    | nil => simpa [find_mate] using h.symm
    | cons bam rest ih =>
      unfold find_mate at h
      rw [if_neg hm] at h
      cases hv : is_valid bam with
      | false =>
        simp only [hv, Bool.false_eq_true, if_false] at h
        rw [List.find?_cons_of_neg _ (by simp [hv])]
        exact ih h
      | true =>
        simp only [hv, if_true] at h
        cases ht : is_template t bam with
        | none => simp [ht] at h
        | some b =>
          cases b with
          | false =>
            simp only [ht] at h
            rw [List.find?_cons_of_neg _ (by simp [ht])]
            exact ih h
          | true =>
            simp only [ht] at h
            cases hmate : is_mate curr bam with
            | false =>
              simp only [hmate, Bool.false_eq_true, if_false] at h
              rw [List.find?_cons_of_neg _ (by simp [hmate])]
              exact ih h
            | true =>
              simp only [hmate, if_true, Option.some.injEq] at h
              rw [List.find?_cons_of_pos _ (by simp [hv, ht, hmate])]
              exact h.symm

/-- When the outer loop of `mate_inprogress_segments` is defined, `complete` gains the
mated pairs of the segments visited and the other segments are kept, in order. -/
theorem mate_loop_eq (t : Template) (bindex : Index) :
    ∀ (l kept compl kept1 compl1 : List Record),
      mate_loop t bindex l kept compl = some (kept1, compl1) →
      compl1 = compl ++ mated_pairs t bindex l ∧ kept1 = kept ++ unmated t bindex l := by
  intro l
  induction l with
  | nil =>
    intro kept compl kept1 compl1 h
    simp only [mate_loop, Option.some.injEq, Prod.mk.injEq] at h
    obtain ⟨rfl, rfl⟩ := h
    simp [mated_pairs, unmated]
  | cons curr rest ih =>
    intro kept compl kept1 compl1 h
    unfold mate_loop at h
    cases hf : find_mate t curr (bindex curr.mtid curr.mpos (curr.mpos + 1)) with
    | none => simp [hf] at h
    | some r =>
      have hr := find_mate_eq_point_query t bindex curr r hf
      cases r with
      | some bam =>
        simp only [hf] at h
        obtain ⟨h1, h2⟩ := ih _ _ _ _ h
        refine ⟨?_, ?_⟩
        · rw [h1, mated_pairs, ← hr]
          simp
        · rw [h2, unmated, unmated, List.filter_cons_of_neg (by simp [← hr])]
      | none =>
        simp only [hf] at h
        obtain ⟨h1, h2⟩ := ih _ _ _ _ h
        refine ⟨?_, ?_⟩
        · rw [h1, mated_pairs, ← hr]
        · rw [h2, unmated, unmated, List.filter_cons_of_pos (by simp [← hr])]
          simp

/-- When the outer loop is defined, so is the point-query loop of every segment. -/
theorem mate_loop_defined (t : Template) (bindex : Index) :
    ∀ (l kept compl : List Record) (res : List Record × List Record),
      mate_loop t bindex l kept compl = some res →
      ∀ s ∈ l, find_mate t s (bindex s.mtid s.mpos (s.mpos + 1)) =
        some (point_query_mate t bindex s) := by
  intro l
  induction l with
  | nil => intro _ _ _ _ s hs; simp at hs
  | cons curr rest ih =>
    intro kept compl res h s hs
    unfold mate_loop at h
    cases hf : find_mate t curr (bindex curr.mtid curr.mpos (curr.mpos + 1)) with
    | none => simp [hf] at h
    | some r =>
      have hr := find_mate_eq_point_query t bindex curr r hf
      rcases List.mem_cons.mp hs with hs | hs
      · rw [hs, hf, hr]
      · cases r with
        | some bam =>
          simp only [hf] at h
          exact ih _ _ _ h s hs
        | none =>
          simp only [hf] at h
          exact ih _ _ _ h s hs

/-- On segments whose point query finds no mate the outer loop keeps everything. -/
theorem mate_loop_none_found (t : Template) (bindex : Index) :
    ∀ (l kept compl : List Record),
      (∀ s ∈ l, find_mate t s (bindex s.mtid s.mpos (s.mpos + 1)) = some none) →
      mate_loop t bindex l kept compl = some (kept ++ l, compl) := by
  intro l
  induction l with
  | nil => intro kept compl _; simp [mate_loop]
  | cons curr rest ih =>
    intro kept compl h
    have hc := h curr (List.mem_cons_self _ _)
    unfold mate_loop
    simp only [hc]
    rw [ih (kept ++ [curr]) compl (fun s hs => h s (List.mem_cons_of_mem _ hs))]
    simp

/-- A defined call of `mate_inprogress_segments` leaves the finalization group in
`complete` and the unmated segments in `inprogress`, and reports whether `complete` is
not empty. -/
theorem mate_inprogress_segments_eq (t t1 : Template) (bindex : Index) (b : Bool)
    (h : mate_inprogress_segments t bindex = some (b, t1)) :
    t1 = { t with inprogress := unmated t bindex t.inprogress,
                  complete := finalization_group t bindex } ∧
    (b = true ↔ finalization_group t bindex ≠ []) := by
  unfold mate_inprogress_segments at h
  cases hl : mate_loop t bindex t.inprogress [] t.complete with
  | none => simp [hl] at h
  | some p =>
    obtain ⟨kept, compl⟩ := p
    obtain ⟨h1, h2⟩ := mate_loop_eq t bindex _ _ _ _ _ hl
    simp only [hl, Option.some.injEq, Prod.mk.injEq] at h
    obtain ⟨hb, ht⟩ := h
    rw [List.nil_append] at h2
    subst h1
    subst h2
    refine ⟨ht.symm, ?_⟩
    rw [← hb]
    simp only [finalization_group, gt_iff_lt, decide_eq_true_eq, List.length_pos]

/-- After a defined call and the drain of `complete`, the next call finds nothing more:
it returns false and changes nothing. -/
theorem mate_inprogress_segments_again (t : Template) (bindex : Index)
    (res : List Record × List Record)
    (hdef : mate_loop t bindex t.inprogress [] t.complete = some res) :
    mate_inprogress_segments
        { t with inprogress := unmated t bindex t.inprogress, complete := [] } bindex =
      some (false, { t with inprogress := unmated t bindex t.inprogress, complete := [] }) := by
  have hnone : ∀ s ∈ unmated t bindex t.inprogress,
      find_mate { t with inprogress := unmated t bindex t.inprogress, complete := [] } s
        (bindex s.mtid s.mpos (s.mpos + 1)) = some none := by
    intro s hs
    unfold unmated at hs
    obtain ⟨hmem, hq⟩ := List.mem_filter.mp hs
    rw [find_mate_congr t
        { t with inprogress := unmated t bindex t.inprogress, complete := [] } rfl rfl s,
      mate_loop_defined t bindex _ _ _ res hdef s hmem]
    simpa using hq
  unfold mate_inprogress_segments
  simp only [mate_loop_none_found _ bindex _ [] [] hnone]
  simp

/-- The loop over one template, when its first call is defined: it pushes the
finalization group of the template, if that is not empty, and nothing else. -/
theorem mate_while_eq (t : Template) (bindex : Index) (fuel : Nat)
    (res : List Record × List Record)
    (hdef : mate_loop t bindex t.inprogress [] t.complete = some res) :
    mate_while bindex (fuel + 2) t =
      ((if finalization_group t bindex = [] then [] else [finalization_group t bindex]),
        Run.ok { t with inprogress := unmated t bindex t.inprogress, complete := [] }) := by
  cases hm : mate_inprogress_segments t bindex with
  | none => simp [mate_inprogress_segments, hdef] at hm
  | some p =>
    obtain ⟨b, t1⟩ := p
    obtain ⟨ht1, hb⟩ := mate_inprogress_segments_eq t t1 bindex b hm
    cases b with
    | false =>
      have hg : finalization_group t bindex = [] := by
        by_contra hne
        exact absurd (hb.mpr hne) (by simp)
      conv_lhs => unfold mate_while
      simp only [hm, hg, if_true]
      rw [ht1, hg]
    | true =>
      have hg : finalization_group t bindex ≠ [] := hb.mp rfl
      conv_lhs => unfold mate_while
      simp only [hm, get_complete, hg, if_false]
      rw [ht1]
      conv_lhs => unfold mate_while
      simp only [mate_inprogress_segments_again t bindex res hdef]

/-- The loop over one template, when its first call is undefined, pushes nothing. -/
theorem mate_while_undefined (t : Template) (bindex : Index) (fuel : Nat)
    (hdef : mate_loop t bindex t.inprogress [] t.complete = none) :
    mate_while bindex (fuel + 1) t = ([], Run.undefined) := by
  conv_lhs => unfold mate_while
  simp [mate_inprogress_segments, hdef]

/-- Every group pushed for one template is its finalization group, and is not empty. -/
theorem mate_while_groups_spec (t : Template) (bindex : Index) (fuel : Nat) :
    ∀ g ∈ (mate_while bindex (fuel + 2) t).1,
      g ≠ [] ∧ g = finalization_group t bindex := by
  intro g hg
  cases hdef : mate_loop t bindex t.inprogress [] t.complete with
  | none =>
    rw [mate_while_undefined t bindex (fuel + 1) hdef] at hg
    simp at hg
  | some res =>
    rw [mate_while_eq t bindex fuel res hdef] at hg
    by_cases he : finalization_group t bindex = []
    · simp [he] at hg
    · simp only [he, if_false, List.mem_singleton] at hg
      rw [hg]
      exact ⟨he, rfl⟩

/-- Every group pushed by the loop over the registry is the finalization group of one of
its templates, and is not empty. -/
theorem mate_templates_groups_spec (bindex : Index) :
    ∀ ts : Templates, ∀ g ∈ (mate_templates bindex ts).1,
      g ≠ [] ∧ ∃ kt ∈ ts, g = finalization_group kt.2 bindex := by
  intro ts
  induction ts with
  | nil => intro g hg; simp [mate_templates] at hg
  | cons kt rest ih =>
    intro g hg
    obtain ⟨k, t⟩ := kt
    have hw := mate_while_groups_spec t bindex t.inprogress.length
    have hhead : g ∈ (mate_while bindex (t.inprogress.length + 2) t).1 →
        g ≠ [] ∧ ∃ kt ∈ (k, t) :: rest, g = finalization_group kt.2 bindex := by
      intro hg1
      exact ⟨(hw g hg1).1, (k, t), List.mem_cons_self _ _, (hw g hg1).2⟩
    cases hr : (mate_while bindex (t.inprogress.length + 2) t).2 with
    | ok t1 =>
      simp only [mate_templates, hr, List.mem_append] at hg
      rcases hg with hg | hg
      · exact hhead hg
      · obtain ⟨h1, kt1, hk1, hk2⟩ := ih g hg
        exact ⟨h1, kt1, List.mem_cons_of_mem _ hk1, hk2⟩
    | undefined =>
      simp only [mate_templates, hr] at hg
      exact hhead hg
    | out_of_fuel =>
      simp only [mate_templates, hr] at hg
      exact hhead hg

/-- A defined run of the loop over the registry pushes, in registry order, the
finalization group of every template for which it is not empty, and leaves every
template with `complete` empty and the unmated segments in `inprogress`. -/
theorem mate_templates_eq (bindex : Index) :
    ∀ (ts ts1 : Templates), (mate_templates bindex ts).2 = Run.ok ts1 →
      (mate_templates bindex ts).1 =
        (ts.map (fun kt => finalization_group kt.2 bindex)).filter (fun g => !g.isEmpty) ∧
      ts1 = ts.map (fun kt =>
        (kt.1, { kt.2 with inprogress := unmated kt.2 bindex kt.2.inprogress,
                           complete := [] })) := by
  intro ts
  induction ts with
  | nil =>
    intro ts1 h
    simp only [mate_templates, Run.ok.injEq] at h
    subst h
    simp [mate_templates]
  | cons kt rest ih =>
    intro ts1 h
    obtain ⟨k, t⟩ := kt
    cases hdef : mate_loop t bindex t.inprogress [] t.complete with
    | none =>
      have hu := mate_while_undefined t bindex (t.inprogress.length + 1) hdef
      simp [mate_templates, hu] at h
    | some res =>
      have he := mate_while_eq t bindex t.inprogress.length res hdef
      cases hrs : (mate_templates bindex rest).2 with
      | ok ts2 =>
        obtain ⟨i1, i2⟩ := ih ts2 hrs
        simp only [mate_templates, he, hrs, Run.ok.injEq] at h
        subst h
        refine ⟨?_, ?_⟩
        · simp only [mate_templates, he, i1, List.map_cons]
          by_cases hg : finalization_group t bindex = []
          · simp [hg]
          · simp [hg]
        · rw [i2]
          rfl
      | undefined => simp [mate_templates, he, hrs] at h
      | out_of_fuel => simp [mate_templates, he, hrs] at h

/-- The mate that the spec's point query finds is a record delivered for the interval
[mate-position, mate-position+1) of the segment's mate reference that is valid, of the
same template and a mate of the segment. -/
theorem point_query_mate_some (t : Template) (bindex : Index) (s m : Record)
    (h : point_query_mate t bindex s = some m) :
    m ∈ bindex s.mtid s.mpos (s.mpos + 1) ∧ is_valid m = true ∧
    is_template t m = some true ∧ is_mate s m = true := by
  unfold point_query_mate at h
  split at h
  · simp at h
  · have hp := List.find?_some h
    have hmem := List.mem_of_find?_eq_some h
    simp only [Bool.and_eq_true, beq_iff_eq] at hp
    exact ⟨hmem, hp.1.1, hp.1.2, hp.2⟩

/-! ## The claims, continued -/

/-- C10 (amended): for every index content and every registry, the finalization loop
ends within its budget, and every group it pushes onto the completed-groups queue is
non-empty and is the whole `complete` of one template of the registry as `get_complete`
drains it: the records that its `complete` held at entry, followed by, for each of its
in-progress segments in order whose point query finds a mate, the found mate and then
the segment.  A found mate is the first record delivered for the interval
[mate-position, mate-position+1) of the segment's mate reference that is valid, of the
same template and a mate of the segment.  A run without undefined behaviour pushes, in
registry order, exactly one such group for every template for which it is not empty, and
leaves every template with `complete` empty and the unmated segments in `inprogress`.
Every group has an even number of records when every template enters with an even
number of records in `complete`, and exactly two records when every template enters
with `complete` empty and at most one segment in `inprogress`. -/
theorem finalization_groups (bindex : Index) (ts : Templates) :
    (mate_templates bindex ts).2 ≠ Run.out_of_fuel ∧
    (∀ g ∈ (mate_templates bindex ts).1,
      g ≠ [] ∧ ∃ kt ∈ ts, g = kt.2.complete ++ mated_pairs kt.2 bindex kt.2.inprogress) ∧
    (∀ ts1 : Templates, (mate_templates bindex ts).2 = Run.ok ts1 →
      (mate_templates bindex ts).1 =
        (ts.map (fun kt => finalization_group kt.2 bindex)).filter (fun g => !g.isEmpty) ∧
      ts1 = ts.map (fun kt =>
        (kt.1, { kt.2 with inprogress := unmated kt.2 bindex kt.2.inprogress,
                           complete := [] }))) ∧
    (∀ (t : Template) (s m : Record), point_query_mate t bindex s = some m →
      m ∈ bindex s.mtid s.mpos (s.mpos + 1) ∧ is_valid m = true ∧
      is_template t m = some true ∧ is_mate s m = true) ∧
    ((∀ kt ∈ ts, kt.2.complete.length % 2 = 0) →
      ∀ g ∈ (mate_templates bindex ts).1, g.length % 2 = 0) ∧
    ((∀ kt ∈ ts, kt.2.complete = [] ∧ kt.2.inprogress.length ≤ 1) →
      ∀ g ∈ (mate_templates bindex ts).1, g.length = 2) :=
  ⟨mate_templates_terminates bindex ts,
    mate_templates_groups_spec bindex ts,
    mate_templates_eq bindex ts,
    fun t s m h => point_query_mate_some t bindex s m h,
    fun heven g hg =>
      (mate_templates_groups bindex (fun g => g ≠ [] ∧ g.length % 2 = 0)
        (fun t => t.complete.length % 2 = 0)
        (fun fuel t h => mate_while_groups_even bindex fuel t h) ts heven g hg).2,
    mate_templates_groups bindex (fun g => g.length = 2)
      (fun t => t.complete = [] ∧ t.inprogress.length ≤ 1)
      (fun fuel t h => mate_while_groups_two bindex fuel t h.1 h.2) ts⟩

/-- Witness of C10 (amended): the registry holding template B with `recS1` and `recS2`
waiting, finalized against `pointIndex`, pushes the one group of both mated pairs; the
registry holding `tplUndrained`, finalized against an index that delivers nothing,
pushes the pair that was left in `complete`. -/
theorem finalization_groups_witness :
    ((mate_templates pointIndex [("B", tplTwoWaiting)]).1 =
        ([("B", tplTwoWaiting)].map
          (fun kt => finalization_group kt.2 pointIndex)).filter (fun g => !g.isEmpty) ∧
      finalization_group tplTwoWaiting pointIndex = [recM1, recS1, recM2, recS2]) ∧
    ((mate_templates emptyIndex [("A", tplUndrained)]).1 =
        ([("A", tplUndrained)].map
          (fun kt => finalization_group kt.2 emptyIndex)).filter (fun g => !g.isEmpty) ∧
      finalization_group tplUndrained emptyIndex = [recA1, recA2]) :=
  ⟨⟨((finalization_groups pointIndex [("B", tplTwoWaiting)]).2.2.1
      [("B", { rg := none, qname := some "B", inprogress := [], complete := [],
               incomplete := [] })] (by decide)).1, by decide⟩,
    ⟨((finalization_groups emptyIndex [("A", tplUndrained)]).2.2.1
      [("A", { rg := none, qname := some "A", inprogress := [recA1], complete := [],
               incomplete := [] })] (by decide)).1, by decide⟩⟩

/-- C11: a call of `iterate_complete` that is not finished processes the pending
records (the one retained in the buffer, then those of the cursor) up to the first read
that meets the stop test, completed-groups queue not empty and (reference id, position)
of the record just read different from those of the record processed right before it.
With no pending record it only sets `iter_done`.  When a read meets the test, exactly
the records before it have been processed, the record just read is kept unprocessed in
the buffer (the next call processes it first), the cursor stands right after it and
`iter_done` stays clear.  When no read meets the test, every record has been processed
and `iter_done` is set. -/
theorem iterate_complete_stop_rule (process : Record → BamIterator → BamIterator)
    (it : State) (hnd : it.iter_done = false) :
    (pending it = [] → iterate_complete process it = { it with iter_done := true }) ∧
    (∀ (pre : List Record) (prev next : Record) (post : List Record),
      pending it = pre ++ prev :: next :: post →
      (∀ (pre1 : List Record) (a b : Record) (post1 : List Record),
        pre ++ [prev] = pre1 ++ a :: b :: post1 →
        batch_boundary (process_all process it.base (pre1 ++ [a])) a b = false) →
      batch_boundary (process_all process it.base (pre ++ [prev])) prev next = true →
      iterate_complete process it =
        { base := process_all process it.base (pre ++ [prev]), iter := post,
          bam := some next, iter_done := false } ∧
      pending (iterate_complete process it) = next :: post) ∧
    (∀ (pre : List Record) (last : Record),
      pending it = pre ++ [last] →
      (∀ (pre1 : List Record) (a b : Record) (post1 : List Record),
        pre ++ [last] = pre1 ++ a :: b :: post1 →
        batch_boundary (process_all process it.base (pre1 ++ [a])) a b = false) →
      iterate_complete process it =
        { base := process_all process it.base (pre ++ [last]), iter := [], bam := none,
          iter_done := true }) := by
  refine ⟨?_, ?_, ?_⟩
  · intro hp
    unfold pending at hp
    cases hb : it.bam with
    | some b => rw [hb] at hp; simp at hp
    | none =>
      rw [hb] at hp
      simp only at hp
      simp [iterate_complete, hnd, hb, hp]
  · intro pre prev next post hp hno hstop
    cases hpend : pending it with
    | nil => rw [hpend] at hp; simp at hp
    | cons bam cursor =>
      rw [hpend] at hp
      have h := iterate_loop_stops process pre bam cursor it.base prev next post hp hno hstop
      rw [iterate_complete_eq_loop process it bam cursor hnd hpend, h]
      exact ⟨rfl, rfl⟩
  · intro pre last hp hno
    cases hpend : pending it with
    | nil => rw [hpend] at hp; simp at hp
    | cons bam cursor =>
      rw [hpend] at hp
      have h := iterate_loop_exhausts process cursor bam it.base (by rw [hp]; exact hno)
      rw [iterate_complete_eq_loop process it bam cursor hnd hpend, h, hp]

/-- Witness of C11: the first call on `itFresh` processes `recA1` and `recA2`, which
complete a pair, and stops at the read of `recC1` (another position), which stays in the
buffer. -/
theorem iterate_complete_stop_rule_witness :
    iterate_complete BamIterator.process itFresh =
      { base := process_all BamIterator.process itFresh.base ([recA1] ++ [recA2]),
        iter := [], bam := some recC1, iter_done := false } ∧
    pending (iterate_complete BamIterator.process itFresh) = [recC1] :=
  (iterate_complete_stop_rule BamIterator.process itFresh rfl).2.1 [recA1] recA2 recC1 []
    rfl
    (fun pre1 a b post1 h => by
      cases pre1 with
      | nil =>
        simp only [List.nil_append, List.cons_append, List.cons.injEq] at h
        obtain ⟨ha, hb, _⟩ := h
        subst ha
        subst hb
        decide
      | cons x xs =>
        cases xs with
        | nil => simp at h
        | cons y ys => simp at h)
    (by decide)

/-- C12 (counterexample): the header knows `chr1` only and the ranges ask for `chr1` and
then for `chrZ`; the call returns -1 after the fetch of the first range has read
`recT0` from the file. -/
theorem scan_bam_fetch_reads_before_failure :
    (_scan_bam_fetch (bam_fetch_counting oneRecordIndex) none ["chr1"] bdStart
        [("chr1", 1, 1000), ("chrZ", 1, 10)]).status = -1 ∧
    (_scan_bam_fetch (bam_fetch_counting oneRecordIndex) none ["chr1"] bdStart
        [("chr1", 1, 1000), ("chrZ", 1, 10)]).fetched = [recT0] ∧
    (_scan_bam_fetch (bam_fetch_counting oneRecordIndex) none ["chr1"] bdStart
        [("chr1", 1, 1000), ("chrZ", 1, 10)]).fetched ≠ [] := by
  decide

/-- C12 (amended): when the requested ranges are `pre ++ (spc, start, end) :: post` with
every name of `pre` among the header's target names and `spc` not among them,
`_scan_bam_fetch` returns -1 after it has fetched and finished the ranges of `pre`, one
after the other (each at the position of its name in the header, from its 0-based start
to its end): the records fetched by the call, and `bd`, are exactly those of these
fetches.  Nothing is fetched for the range with the absent name nor for any range after
it, and when that range is the first, nothing is fetched and `bd` is unchanged. -/
theorem scan_bam_fetch_absent_name
    (fetch : Bool → Int → Int → Int → BAM_DATA → List Record × BAM_DATA)
    (finish1 : Option (BAM_DATA → BAM_DATA)) (target_name : List String) (bd : BAM_DATA)
    (pre : List (String × Int × Int)) (spc : String) (start end0 : Int)
    (post : List (String × Int × Int))
    (hpre : ∀ x ∈ pre, x.1 ∈ target_name) (habs : spc ∉ target_name) :
    _scan_bam_fetch fetch finish1 target_name bd (pre ++ (spc, start, end0) :: post) =
      { status := -1,
        bd := (fetch_ranges fetch finish1 target_name bd.asMates pre bd).2,
        fetched := (fetch_ranges fetch finish1 target_name bd.asMates pre bd).1 } ∧
    (pre = [] →
      _scan_bam_fetch fetch finish1 target_name bd (pre ++ (spc, start, end0) :: post) =
        { status := -1, bd := bd, fetched := [] }) ∧
    (∀ (name : String) (s e : Int), pre = [(name, s, e)] →
      (_scan_bam_fetch fetch finish1 target_name bd
          (pre ++ (spc, start, end0) :: post)).fetched =
        (fetch bd.asMates ((target_name.indexOf name : Nat) : Int)
          (if s > 0 then s - 1 else s) e bd).1) := by
  have h := scan_bam_fetch_loop_absent_eq fetch finish1 target_name bd.iparsed bd.asMates
    spc start end0 post habs pre bd [] hpre
  refine ⟨h, ?_, ?_⟩
  · intro hnil
    subst hnil
    exact h
  · intro name s e hone
    subst hone
    unfold _scan_bam_fetch
    rw [h]
    simp [fetch_range]

/-- Witness of C12 (amended): the header knows `chr1`, the ranges ask for `chr1`, then
`chrZ`, then `chr1` again; the call returns -1 and the records fetched are those of the
first range alone, read from position 0 of reference 0. -/
theorem scan_bam_fetch_absent_name_witness :
    _scan_bam_fetch (bam_fetch_counting oneRecordIndex) none ["chr1"] bdStart
        ([("chr1", 1, 1000)] ++ ("chrZ", 1, 10) :: [("chr1", 2000, 3000)]) =
      { status := -1,
        bd := (fetch_ranges (bam_fetch_counting oneRecordIndex) none ["chr1"]
          bdStart.asMates [("chr1", 1, 1000)] bdStart).2,
        fetched := (fetch_ranges (bam_fetch_counting oneRecordIndex) none ["chr1"]
          bdStart.asMates [("chr1", 1, 1000)] bdStart).1 } ∧
    (fetch_ranges (bam_fetch_counting oneRecordIndex) none ["chr1"]
      bdStart.asMates [("chr1", 1, 1000)] bdStart) =
      ([recT0], { iparsed := 1, irange := 1, asMates := false }) :=
  ⟨(scan_bam_fetch_absent_name (bam_fetch_counting oneRecordIndex) none ["chr1"]
    bdStart [("chr1", 1, 1000)] "chrZ" 1 10 [("chr1", 2000, 3000)] (by decide)
    (by decide)).1, by decide⟩

/-- C13 (the code at the failing input): the invalid record `recA0` was added to a fresh
template and waits in `incomplete`; `add_segment` of the valid record `recA1` returns
false and appends it to `inprogress`, but `size()` is 1, the "new template" branch is
skipped, and `qname` and `rg` stay unset.  `is_template` on the mate `recA2` is then
undefined, and so is `mate_inprogress_segments` once a point query delivers `recA2`;
on a fresh template the same call records the identity and `is_template` is true. -/
theorem add_segment_leaves_identity_unset :
    (add_segment (add_segment empty recA0).2 recA1).1 = false ∧
    (add_segment (add_segment empty recA0).2 recA1).2.inprogress = [recA1] ∧
    (add_segment (add_segment empty recA0).2 recA1).2.qname = none ∧
    is_template (add_segment (add_segment empty recA0).2 recA1).2 recA2 = none ∧
    mate_inprogress_segments (add_segment (add_segment empty recA0).2 recA1).2
      mateA2Index = none ∧
    (add_segment empty recA1).2.qname = some recA1.qname ∧
    is_template (add_segment empty recA1).2 recA2 = some true := by
  decide

/-- C14: `iterate_incomplete` ends within the budget of its loops, and whenever it
returns, the file offset is the one `bam_tell` gave at its entry, wherever the point
queries and the base-class call have left the file in between; it does return, with the
offset restored, whenever the mating loop is defined and the base-class call raises no
error. -/
theorem iterate_incomplete_restores_offset (bindex : Index)
    (moved : Templates → Int → Int)
    (base_iterate_incomplete : BamIterator → Int → Except String BamIterator × Int)
    (it : State) (bfile : Int) :
    iterate_incomplete bindex moved base_iterate_incomplete it bfile ≠ Run.out_of_fuel ∧
    (∀ (it1 : State) (off : Int),
      iterate_incomplete bindex moved base_iterate_incomplete it bfile =
        Run.ok (Except.ok it1, off) → off = bfile) ∧
    (∀ (ts : Templates) (base2 : BamIterator) (off : Int),
      (mate_templates bindex it.base.templates).2 = Run.ok ts →
      base_iterate_incomplete
          { it.base with
            templates := ts
            complete := it.base.complete ++ (mate_templates bindex it.base.templates).1 }
          (moved it.base.templates bfile) = (Except.ok base2, off) →
      iterate_incomplete bindex moved base_iterate_incomplete it bfile =
        Run.ok (Except.ok { it with base := base2 }, bfile)) := by
  have hfuel := mate_templates_terminates bindex it.base.templates
  refine ⟨?_, ?_, ?_⟩
  · cases hr : (mate_templates bindex it.base.templates).2 with
    | ok ts =>
      simp only [iterate_incomplete, hr]
      split <;> simp
    | undefined => simp [iterate_incomplete, hr]
    | out_of_fuel => exact absurd hr hfuel
  · intro it1 off h
    cases hr : (mate_templates bindex it.base.templates).2 with
    | ok ts =>
      simp only [iterate_incomplete, hr] at h
      split at h
      · simp only [Run.ok.injEq, Prod.mk.injEq] at h
        exact h.2.symm
      · simp at h
    | undefined => simp [iterate_incomplete, hr] at h
    | out_of_fuel => simp [iterate_incomplete, hr] at h
  · intro ts base2 off hr hb
    unfold iterate_incomplete
    simp only [hr, hb]

/-- Witness of C14: the exhausted iterator `itExhausted` at file offset 77; the point
queries leave the file 4096 further, and after the call the offset is 77 again. -/
theorem iterate_incomplete_restores_offset_witness :
    (fun (_ : Templates) (off : Int) => off + 4096) itExhausted.base.templates 77 ≠ 77 ∧
    iterate_incomplete pointIndex (fun _ off => off + 4096) BamIterator.iterate_incomplete
        itExhausted 77 =
      Run.ok (Except.ok
        { itExhausted with
          base := { templates := [], complete := [[recM1, recS1, recM2, recS2]],
                    incomplete := [] } }, 77) :=
  ⟨by decide,
    (iterate_incomplete_restores_offset pointIndex (fun _ off => off + 4096)
      BamIterator.iterate_incomplete itExhausted 77).2.2
      [("B", { rg := none, qname := some "B", inprogress := [], complete := [],
               incomplete := [] })]
      { templates := [], complete := [[recM1, recS1, recM2, recS2]], incomplete := [] }
      4173 (by decide) (by rfl)⟩

/-- C15: in every template state reached from the empty template by `add_segment`,
`mate_inprogress_segments`, `get_complete`, `get_incomplete` and `cleanup` calls (a
failing `cleanup` leaves the template as it is), for every `k` with `2k+1` below the
length of `complete` the records at places `2k` and `2k+1` are both valid and
`is_mate(complete[2k+1], complete[2k])` holds; and every record of `inprogress` is
valid. -/
theorem complete_pairs_mated (cs : List Call) (t : Template)
    (h : run_calls_raising cs empty = some t) :
    (∀ (k : Nat) (a b : Record),
      t.complete.get? (2 * k) = some a → t.complete.get? (2 * k + 1) = some b →
      is_valid a = true ∧ is_valid b = true ∧ is_mate b a = true) ∧
    (∀ r ∈ t.inprogress, is_valid r = true) :=
  have hinv := run_calls_raising_pairs cs empty t h rfl rfl (by simp [empty])
  ⟨pairs_mated_index t.complete hinv.1, hinv.2⟩

/-- Witness of C15: `recA1` and `recA2` are added and mated, a `cleanup` fails because
`complete` was not drained, and `recA1` is added again: `complete` holds the pair and
`inprogress` the new record. -/
theorem complete_pairs_mated_witness :
    run_calls_raising [Call.add_segment recA1, Call.add_segment recA2, Call.cleanup,
        Call.add_segment recA1] empty =
      some { rg := none, qname := some "A", inprogress := [recA1],
             complete := [recA1, recA2], incomplete := [] } ∧
    (is_valid recA1 = true ∧ is_valid recA2 = true ∧ is_mate recA2 recA1 = true) :=
  ⟨by decide,
    (complete_pairs_mated
      [Call.add_segment recA1, Call.add_segment recA2, Call.cleanup, Call.add_segment recA1]
      { rg := none, qname := some "A", inprogress := [recA1],
        complete := [recA1, recA2], incomplete := [] } (by decide)).1 0 recA1 recA2 rfl rfl⟩

end Theorems

end Rsamtools
